import Mathlib

/-!
A shallow embedding of the rescue-poseidon repository (Rust) in Lean 4.

The embedding covers:
* the `HashParams` trait (an accessor record whose accessors return `Option`
  values: `none` models a call that panics, e.g. Rust's `unimplemented!`
  or an out-of-range index);
* the native Rescue round function `rescue_round_function`
  (src/src/rescue/rescue.rs, lines 116-149) together with the concrete
  `RescueParams` implementation of the trait (lines 49-114);
* the constrained Poseidon round function `gadget_poseidon_round_function`
  (src/src/circuit/poseidon.rs, lines 70-164), value-level: a circuit
  linear combination is represented by the field value it evaluates to
  under the bound assignment, the constraint system by a counter of
  fallible backend operations together with an oracle
  `Nat → Option ε` telling which backend operation (if any) signals a
  synthesis failure and with which error value;
* the circuit-side hash entry points of src/src/circuit/poseidon.rs
  (lines 19-69), over a spec-modelled sponge.

Field elements are taken in an arbitrary commutative ring `F` (the
operations the source uses are addition, multiplication and natural-number
powers; the multiplicative inverse of the field is never used).  S-box
exponents (Rescue's `alpha`/`alpha_inv`) are modelled as the natural-number
exponents they denote.
-/

set_option linter.unusedSectionVars false

namespace RescuePoseidon

/-- The hash family tag (`HashFamily` of src/src/rescue/rescue.rs and
src/src/circuit/poseidon.rs, via crate::traits). -/
inductive HashFamily
  | Rescue
  | Poseidon
  deriving DecidableEq

/-- The `HashParams` trait: one field per accessor.  An accessor returning
`none` models a call that never returns a value (Rust `unimplemented!` / a
panicking index).  Matrices are lists of rows; constant vectors are lists of
field elements; `alpha`/`alpha_inv` are the natural-number S-box exponents. -/
structure HashParams (F : Type) where
  hash_family : Option HashFamily
  constants_of_round : Nat → Option (List F)
  mds_matrix : Option (List (List F))
  number_of_full_rounds : Option Nat
  number_of_partial_rounds : Option Nat
  alpha : Option Nat
  alpha_inv : Option Nat
  optimized_mds_matrixes : Option (List (List F) × List (List (List F)))
  optimized_round_constants : Option (List (List F))

variable {F : Type} [CommRing F] {ε : Type} {α : Type} {β : Type}

/-- Modelled from the spec: the dot product underlying the dense
matrix-vector product of crate::common::matrix (not under src/). -/
def dotProd (r v : List F) : F :=
  (List.zipWith (fun a b => a * b) r v).sum

/-- Modelled from the spec: `mmul_assign` / the dense matrix-vector product
("standard dense product", spec section 4.2); the matrix is a list of rows. -/
def matVecMul (m : List (List F)) (v : List F) : List F :=
  m.map (fun row => dotProd row v)

/-- Rust's `state.iter_mut().zip(constants.iter()).for_each(|(s, c)| s.add_assign(c))`
pattern: add the constants into the leading lanes of the state, leaving the
state's length unchanged (the zip stops at the shorter sequence). -/
def addRoundConstants : List F → List F → List F
  | st, [] => st
  | [], _ => []
  | s :: st, c :: cs => (s + c) :: addRoundConstants st cs

/-- Modelled from the spec: the native S-box of crate::common::sbox (not
under src/): raise each element of the (sub)state to a fixed power. -/
def sboxPow (e : Nat) (st : List F) : List F :=
  st.map (fun x => x ^ e)

/-- `RescueParams` (src/src/rescue/rescue.rs, lines 49-56). -/
structure RescueParams (F : Type) where
  full_rounds : Nat
  round_constants : List (List F)
  mds_matrix : List (List F)
  alpha : Nat
  alpha_inv : Nat

/-- The `HashParams` implementation for `RescueParams`
(src/src/rescue/rescue.rs, lines 76-114).  `constants_of_round` indexes
`round_constants` (panics, i.e. `none`, when out of range); the three
Poseidon-only accessors are `unimplemented!`, i.e. `none`. -/
def RescueParams.toHashParams (p : RescueParams F) : HashParams F where
  hash_family := some HashFamily.Rescue
  constants_of_round := fun round => p.round_constants.get? round
  mds_matrix := some p.mds_matrix
  number_of_full_rounds := some p.full_rounds
  number_of_partial_rounds := none
  alpha := some p.alpha
  alpha_inv := some p.alpha_inv
  optimized_mds_matrixes := none
  optimized_round_constants := none

/-- The loop body of `rescue_round_function` (src/src/rescue/rescue.rs,
lines 132-148), iterated over the given list of round indices: S-box with
`alpha_inv` on even rounds and `alpha` on odd rounds, dense MDS
multiplication, then addition of the constants of round `r + 1`.  `none`
models the panic of an accessor or of an out-of-range constant index. -/
def rescueRoundsLoop (hp : HashParams F) : List Nat → List F → Option (List F)
  | [], st => some st
  | r :: rest, st =>
    (if r % 2 = 0 then hp.alpha_inv else hp.alpha).bind fun e =>
    hp.mds_matrix.bind fun m =>
    (hp.constants_of_round (r + 1)).bind fun c =>
    rescueRoundsLoop hp rest (addRoundConstants (matVecMul m (sboxPow e st)) c)

/-- `rescue_round_function` (src/src/rescue/rescue.rs, lines 116-149):
assert the family tag is Rescue, add the round-0 constants, then run
`2 * number_of_full_rounds` rounds. -/
def rescue_round_function (hp : HashParams F) (st : List F) : Option (List F) :=
  hp.hash_family.bind fun fam =>
  if fam = HashFamily.Rescue then
    (hp.constants_of_round 0).bind fun c0 =>
    hp.number_of_full_rounds.bind fun full =>
    rescueRoundsLoop hp (List.range (2 * full)) (addRoundConstants st c0)
  else
    none

/-- `(l.get? i).getD d`: list lookup with a default, used by the
specification-side round descriptions. -/
def nthD (l : List α) (i : Nat) (d : α) : α :=
  (l.get? i).getD d

/-- The Rescue round schedule exactly as the spec words it (section 4.3):
add round-0 constants, then for each round `r` in `0 .. 2*full` apply the
S-box (exponent `alpha_inv` for even `r`, `alpha` for odd `r`) to every
lane, multiply by the dense MDS matrix, and add the constants of round
`r + 1`. -/
def rescueSpec (full : Nat) (mds : List (List F)) (a ai : Nat)
    (c : Nat → List F) (st : List F) : List F :=
  (List.range (2 * full)).foldl
    (fun s r =>
      addRoundConstants (matVecMul mds (sboxPow (if r % 2 = 0 then ai else a) s)) (c (r + 1)))
    (addRoundConstants st (c 0))

/-- How a run of a constrained-mode function ends abnormally: `panic`
models a Rust panic (a failed assertion, an out-of-range index, or an
`expect` on an `Err`), `synth e` models `Err(e)` returned through the
function's `Result` (`e` a backend `SynthesisError` value). -/
inductive Failure (ε : Type)
  | panic : Failure ε
  | synth : ε → Failure ε
  deriving DecidableEq

/-- Lift an accessor / index lookup into the constrained run: `none`
becomes a panic. -/
def orPanic : Option α → Except (Failure ε) α
  | none => Except.error Failure.panic
  | some a => Except.ok a

/-- A Rust `assert!`: panic unless the condition holds. -/
def panicUnless (c : Prop) [Decidable c] : Except (Failure ε) Unit :=
  if c then Except.ok () else Except.error Failure.panic

/-- A Rust slice indexing check: panic when the slice is empty
(`sparse_matrixes.len() - 1` underflows / `last().unwrap()` fails). -/
def nonemptyCheck : List α → Except (Failure ε) Unit
  | [] => Except.error Failure.panic
  | _ :: _ => Except.ok ()

/-- The oracle of a backend that never signals a synthesis failure. -/
def noFailure : Nat → Option ε := fun _ => none

/-- Modelled from the spec: `sbox_quintic` of src/circuit/sbox.rs (not
under src/): the constrained quintic S-box over the given (sub)state.
Value-level it raises every element to the 5th power; it performs one
fallible backend operation (gate emission), whose failure is returned
through the `Result` (the source propagates it with `?`). -/
def sbox_quintic (oracle : Nat → Option ε) (st : List F) (n : Nat) :
    Except (Failure ε) (List F × Nat) :=
  match oracle n with
  | some e => Except.error (Failure.synth e)
  | none => Except.ok (st.map (fun x => x ^ 5), n + 1)

/-- Modelled from the spec: `matrix_vector_product` of src/circuit/utils.rs
(not under src/): the constrained dense matrix-vector product; one
fallible backend operation, failure returned through the `Result`. -/
def matrix_vector_product (oracle : Nat → Option ε) (m : List (List F))
    (v : List F) (n : Nat) : Except (Failure ε) (List F × Nat) :=
  match oracle n with
  | some e => Except.error (Failure.synth e)
  | none => Except.ok (matVecMul m v, n + 1)

/-- Modelled from the spec: `mul_by_sparse_matrix` of src/circuit/utils.rs
(not under src/): the specialized product against a sparse matrix
(dense first row/column, diagonal elsewhere).  The source returns it
directly (no `Result`), so it is infallible; value-level it is the product
by the matrix's entries. -/
def mul_by_sparse_matrix (m : List (List F)) (v : List F) : List F :=
  matVecMul m v

/-- The `sbox_quintic(cs, &mut state[..1])?` pattern of
src/src/circuit/poseidon.rs (lines 127, 132, 142): the constrained S-box
applied to the length-`min 1` leading slice of the state, the remaining
lanes untouched. -/
def sboxLane0 (oracle : Nat → Option ε) (st : List F) (n : Nat) :
    Except (Failure ε) (List F × Nat) := do
  let hn ← sbox_quintic oracle (st.take 1) n
  Except.ok (hn.1 ++ st.drop 1, hn.2)

/-- The `state[0].add_assign_constant(c)` pattern of
src/src/circuit/poseidon.rs (lines 128, 133, 143): the receiver `state[0]`
is evaluated first (panic on an empty state), then the constant lookup
(panic when its own indexing fails), then the addition. -/
def add_assign_lane0 (st : List F) (oc : Option F) :
    Except (Failure ε) (List F) :=
  match st with
  | [] => Except.error Failure.panic
  | x :: r =>
    match oc with
    | none => Except.error Failure.panic
    | some c => Except.ok ((x + c) :: r)

/-- The `LC -> Num -> LC` reduction of src/src/circuit/poseidon.rs
(lines 136-139): for each lane, `state.clone().into_num(cs).expect("a num")`
performs one fallible backend allocation and unwraps it with `expect`, so a
synthesis failure here becomes a panic; the lane's value is unchanged. -/
def into_num_materialize (oracle : Nat → Option ε) :
    List F → Nat → Except (Failure ε) (List F × Nat)
  | [], n => Except.ok ([], n)
  | x :: rest, n =>
    match oracle n with
    | some _ => Except.error Failure.panic
    | none => do
      let sn ← into_num_materialize oracle rest (n + 1)
      Except.ok (x :: sn.1, sn.2)

/-- Rust's `chunks(2)`: split a list into consecutive chunks of two, the
last chunk possibly a singleton. -/
def chunks2 : List α → List (List α)
  | [] => []
  | [a] => [[a]]
  | a :: b :: rest => [a, b] :: chunks2 rest

/-- Rust's slice `&l[a..b]`: defined (as the elements with index in
`[a, b)`) iff `a ≤ b ≤ l.length`, otherwise a panic (`none`). -/
def sliceD (l : List α) (a b : Nat) : Option (List α) :=
  if a ≤ b ∧ b ≤ l.length then some ((l.take b).drop a) else none

/-- `constants_for_partial_rounds` of src/src/circuit/poseidon.rs
(lines 115-118): slice the optimized round constants from `half + 1` to
`half + number_of_partial_rounds` (panic on a bad range) and push one
all-zero width-`STATE_WIDTH` vector at the end. -/
def constants_for_partial_rounds (orc : List (List F))
    (half pRounds width : Nat) : Option (List (List F)) :=
  (sliceD orc (half + 1) (half + pRounds)).map
    (fun l => l ++ [List.replicate width (0 : F)])

/-- The full-round loop body of src/src/circuit/poseidon.rs (lines 94-106
and 147-161), iterated over the given round indices: index the optimized
round constants (panic when out of range), add them to every lane, apply
the constrained quintic S-box to every lane, then multiply by the dense
MDS matrix (the `mds_matrix()` accessor is queried each round). -/
def fullRoundsLoop (oracle : Nat → Option ε) (hp : HashParams F)
    (orc : List (List F)) :
    List Nat → List F → Nat → Except (Failure ε) (List F × Nat)
  | [], st, n => Except.ok (st, n)
  | r :: rest, st, n => do
    let rc ← orPanic (orc.get? r)
    let sn ← sbox_quintic oracle (addRoundConstants st rc) n
    let mds ← orPanic hp.mds_matrix
    let sn ← matrix_vector_product oracle mds sn.1 sn.2
    fullRoundsLoop oracle hp orc rest sn.1 sn.2

/-- The merged-pair partial-round loop of src/src/circuit/poseidon.rs
(lines 121-140), iterated over the zipped chunk pairs: two partial rounds
(S-box on lane 0, add that round's lane-0 constant, multiply by that
round's sparse matrix), then the `LC -> Num -> LC` materialization of
every lane.  Indexing `round_constant[1]` / `sparse_matrix[1]` on a
singleton chunk panics. -/
def pairRoundsLoop (oracle : Nat → Option ε) :
    List (List (List F) × List (List (List F))) → List F → Nat →
    Except (Failure ε) (List F × Nat)
  | [], st, n => Except.ok (st, n)
  | (rcC, smC) :: rest, st, n => do
    let sn ← sboxLane0 oracle st n
    let st ← add_assign_lane0 sn.1 ((rcC.get? 0).bind (fun v => v.get? 0))
    let sm0 ← orPanic (smC.get? 0)
    let st := mul_by_sparse_matrix sm0 st
    let sn2 ← sboxLane0 oracle st sn.2
    let st ← add_assign_lane0 sn2.1 ((rcC.get? 1).bind (fun v => v.get? 0))
    let sm1 ← orPanic (smC.get? 1)
    let st := mul_by_sparse_matrix sm1 st
    let sn3 ← into_num_materialize oracle st sn2.2
    pairRoundsLoop oracle rest sn3.1 sn3.2

/-- The final (unpaired) partial round of src/src/circuit/poseidon.rs
(lines 142-144): S-box on lane 0, add the lane-0 entry of the last pushed
constant vector, multiply by the last sparse matrix. -/
def lastRoundStep (oracle : Nat → Option ε) (cpr : List (List F))
    (sparse_matrixes : List (List (List F))) (st : List F) (n : Nat) :
    Except (Failure ε) (List F × Nat) := do
  let sn ← sboxLane0 oracle st n
  let st ← add_assign_lane0 sn.1 (cpr.getLast?.bind (fun v => v.get? 0))
  let smL ← orPanic sparse_matrixes.getLast?
  Except.ok (mul_by_sparse_matrix smL st, sn.2)

/-- `gadget_poseidon_round_function` (src/src/circuit/poseidon.rs,
lines 70-164): assert the family tag is Poseidon and the number of full
rounds even; run the first `full/2` full rounds; add the constants of
round `full/2` and multiply by the `M'` matrix; build
`constants_for_partial_rounds`; run the partial rounds in merged pairs
over `chunks(2)` of all but the last constant vector zipped with
`chunks(2)` of all but the last sparse matrix; run the final unpaired
partial round; then run the remaining `full/2` full rounds. -/
def gadget_poseidon_round_function (oracle : Nat → Option ε) (width : Nat)
    (hp : HashParams F) (st : List F) (n : Nat) :
    Except (Failure ε) (List F × Nat) := do
  let fam ← orPanic hp.hash_family
  let _ ← panicUnless (fam = HashFamily.Poseidon)
  let full ← orPanic hp.number_of_full_rounds
  let _ ← panicUnless (full % 2 = 0)
  let half := full / 2
  let mm ← orPanic hp.optimized_mds_matrixes
  let orc ← orPanic hp.optimized_round_constants
  let sn ← fullRoundsLoop oracle hp orc (List.range half) st n
  let rcH ← orPanic (orc.get? half)
  let sn ← matrix_vector_product oracle mm.1 (addRoundConstants sn.1 rcH) sn.2
  let pRounds ← orPanic hp.number_of_partial_rounds
  let cpr ← orPanic (constants_for_partial_rounds orc half pRounds width)
  let _ ← nonemptyCheck mm.2
  let sn ← pairRoundsLoop oracle
      ((chunks2 cpr.dropLast).zip (chunks2 mm.2.dropLast)) sn.1 sn.2
  let sn ← lastRoundStep oracle cpr mm.2 sn.1 sn.2
  let sn ← fullRoundsLoop oracle hp orc
      (List.range' (pRounds + half) ((pRounds + full) - (pRounds + half))) sn.1 sn.2
  Except.ok sn

/-- `lane0Pow5 st`: the quintic S-box applied to lane 0 only (spec
section 4.2: Poseidon applies the quintic power "only to lane 0 during
partial rounds"). -/
def lane0Pow5 : List F → List F
  | [] => []
  | x :: r => x ^ 5 :: r

/-- Add a constant to lane 0 only, leaving the other lanes unchanged. -/
def lane0AddC : List F → F → List F
  | [], _ => []
  | x :: r, c => (x + c) :: r

/-- One full round as the spec words it (section 4.4, Phases A and C):
add that round's constants to every lane, apply the full quintic S-box to
every lane, multiply by the dense MDS matrix. -/
def specFullRound (mds : List (List F)) (rc : List F) (st : List F) : List F :=
  matVecMul mds ((addRoundConstants st rc).map (fun x => x ^ 5))

/-- The transition between the full and partial phases as the spec words
it (section 4.4): add the next constant vector to every lane, then
multiply by the optimized `M'` matrix. -/
def specTransition (mPrime : List (List F)) (rcH : List F) (st : List F) : List F :=
  matVecMul mPrime (addRoundConstants st rcH)

/-- One partial round as the spec words it (section 4.4, Phase B): apply
the S-box to lane 0 only, add that round's single relevant constant to
lane 0, multiply by that round's sparse matrix. -/
def specPartialRound (m : List (List F)) (c : F) (st : List F) : List F :=
  matVecMul m (lane0AddC (lane0Pow5 st) c)

/-- The per-partial-round constant schedule: the optimized round constants
with index in `[half + 1, half + pRounds)`, followed by one all-zero
vector. -/
def specPartialConstants (orc : List (List F)) (half pRounds width : Nat) :
    List (List F) :=
  (orc.take (half + pRounds)).drop (half + 1) ++ [List.replicate width (0 : F)]

/-- Phase B's flat fold: the partial rounds one after the other, round `i`
using the `i`-th constant vector's lane-0 entry and the `i`-th sparse
matrix. -/
def partialFold (l : List (List F × List (List F))) (st : List F) : List F :=
  l.foldl (fun s cm => specPartialRound cm.2 (nthD cm.1 0 0) s) st

/-- The three-phase Poseidon round schedule exactly as the spec words it
(section 4.4): Phase A (`full/2` full rounds), the `M'` transition, Phase
B (the partial rounds, one after the other, each using its own sparse
matrix and lane-0 constant), Phase C (the remaining `full/2` full
rounds). -/
def specPoseidonPhases (width full pRounds : Nat) (orc : List (List F))
    (mds mPrime : List (List F)) (sparse : List (List (List F)))
    (st : List F) : List F :=
  let half := full / 2
  let stA := (List.range half).foldl
    (fun s r => specFullRound mds (nthD orc r []) s) st
  let stT := specTransition mPrime (nthD orc half []) stA
  let stP := partialFold ((specPartialConstants orc half pRounds width).zip sparse) stT
  (List.range' (pRounds + half) (full - half)).foldl
    (fun s r => specFullRound mds (nthD orc r []) s) stP

/-- Modelled from the spec: `PoseidonParams` of crate::poseidon (its source
file is not under src/; spec section 3 lists its contents): full and
partial round counts, raw round constants, the dense MDS matrix, and the
optimized decomposition (`M'`, one sparse matrix per partial round, and the
pre-folded optimized round constants). -/
structure PoseidonParams (F : Type) where
  full_rounds : Nat
  partial_rounds : Nat
  round_constants : List (List F)
  mds_matrix : List (List F)
  m_prime : List (List F)
  sparse_matrixes : List (List (List F))
  optimized_round_constants : List (List F)

/-- Modelled from the spec: the `HashParams` implementation for
`PoseidonParams` (not under src/; spec section 4.1): the Rescue-only
accessors `alpha`/`alpha_inv` fail (`none`), everything else returns. -/
def PoseidonParams.toHashParams (p : PoseidonParams F) : HashParams F where
  hash_family := some HashFamily.Poseidon
  constants_of_round := fun round => p.round_constants.get? round
  mds_matrix := some p.mds_matrix
  number_of_full_rounds := some p.full_rounds
  number_of_partial_rounds := some p.partial_rounds
  alpha := none
  alpha_inv := none
  optimized_mds_matrixes := some (p.m_prime, p.sparse_matrixes)
  optimized_round_constants := some p.optimized_round_constants

/-- Modelled from the spec: the native Poseidon round function of
crate::poseidon (its source file is not under src/; spec section 4.4
describes it as the same three-phase schedule as the constrained form,
with the constrained-only materialization step skipped). -/
def poseidon_round_function (width : Nat) (p : PoseidonParams F)
    (st : List F) : List F :=
  specPoseidonPhases width p.full_rounds p.partial_rounds
    p.optimized_round_constants p.mds_matrix p.m_prime p.sparse_matrixes st

/-- Modelled from the spec: a constrained S-box with a Rescue exponent
(the circuit counterpart of crate::common::sbox; not under src/): one
fallible backend operation, value-level each element is raised to the
exponent. -/
def sbox_alpha (oracle : Nat → Option ε) (e : Nat) (st : List F) (n : Nat) :
    Except (Failure ε) (List F × Nat) :=
  match oracle n with
  | some er => Except.error (Failure.synth er)
  | none => Except.ok (sboxPow e st, n + 1)

/-- Modelled from the spec: the loop of the constrained Rescue round
function (its source file is not under src/), mirroring
`rescueRoundsLoop` with fallible constrained operations. -/
def gadgetRescueLoop (oracle : Nat → Option ε) (hp : HashParams F) :
    List Nat → List F → Nat → Except (Failure ε) (List F × Nat)
  | [], st, n => Except.ok (st, n)
  | r :: rest, st, n => do
    let e ← orPanic (if r % 2 = 0 then hp.alpha_inv else hp.alpha)
    let sn ← sbox_alpha oracle e st n
    let mds ← orPanic hp.mds_matrix
    let sn ← matrix_vector_product oracle mds sn.1 sn.2
    gadgetRescueLoop oracle hp rest sn.1 sn.2

/-- Modelled from the spec: the constrained Rescue round function (its
source file is not under src/), mirroring `rescue_round_function`: family
assertion, round-0 constants, then `2 * number_of_full_rounds` rounds. -/
def gadget_rescue_round_function (oracle : Nat → Option ε)
    (hp : HashParams F) (st : List F) (n : Nat) :
    Except (Failure ε) (List F × Nat) := do
  let fam ← orPanic hp.hash_family
  let _ ← panicUnless (fam = HashFamily.Rescue)
  let c0 ← orPanic (hp.constants_of_round 0)
  let full ← orPanic hp.number_of_full_rounds
  gadgetRescueLoop oracle hp (List.range (2 * full)) (addRoundConstants st c0) n

/-- Modelled from the spec: the sponge's family dispatch (spec section 2:
"sponge drives permutation engine"; the sponge source is not under src/):
the parameter set's family tag selects which constrained round function
runs. -/
def gadget_generic_round_function (oracle : Nat → Option ε) (width : Nat)
    (hp : HashParams F) (st : List F) (n : Nat) :
    Except (Failure ε) (List F × Nat) :=
  match hp.hash_family with
  | some HashFamily.Poseidon => gadget_poseidon_round_function oracle width hp st n
  | some HashFamily.Rescue => gadget_rescue_round_function oracle hp st n
  | none => Except.error Failure.panic

/-- Split a list into consecutive chunks of `k` elements (the sponge's
rate-sized input blocks). -/
def chunksOf (k : Nat) : List α → List (List α)
  | [] => []
  | a :: as =>
    if k = 0 then []
    else (a :: as).take k :: chunksOf k ((a :: as).drop k)
  termination_by l => l.length
  decreasing_by simp; omega

/-- Modelled from the spec: the sponge's absorb loop (not under src/; spec
section 4.5): each rate-sized block is added into the rate lanes and the
permutation selected by the family tag is applied. -/
def absorbLoop (oracle : Nat → Option ε) (width : Nat) (hp : HashParams F) :
    List (List F) → List F → Nat → Except (Failure ε) (List F × Nat)
  | [], st, n => Except.ok (st, n)
  | blk :: rest, st, n => do
    let sn ← gadget_generic_round_function oracle width hp (addRoundConstants st blk) n
    absorbLoop oracle width hp rest sn.1 sn.2

/-- Modelled from the spec: `circuit_generic_hash` of src/circuit/hash.rs
(not under src/): the fixed-length constrained hash entry: seed the first
capacity lane with the input length, pad the input with zeros to a
multiple of the rate, absorb the blocks, squeeze the rate lanes. -/
def circuit_generic_hash (oracle : Nat → Option ε) (width rate : Nat)
    (hp : HashParams F) (input : List F) (n : Nat) :
    Except (Failure ε) (List F × Nat) := do
  let padded := input ++ List.replicate ((rate - input.length % rate) % rate) (0 : F)
  let st0 := (List.replicate width (0 : F)).set rate ((input.length : Nat) : F)
  let sn ← absorbLoop oracle width hp (chunksOf rate padded) st0 n
  Except.ok (sn.1.take rate, sn.2)

/-- Modelled from the spec: `circuit_generic_hash_var_length` of
src/circuit/hash.rs (not under src/): the variable-length constrained hash
entry: no capacity seeding, no padding, a panic when the input length is
not a multiple of the rate. -/
def circuit_generic_hash_var_length (oracle : Nat → Option ε)
    (width rate : Nat) (hp : HashParams F) (input : List F) (n : Nat) :
    Except (Failure ε) (List F × Nat) := do
  let _ ← panicUnless (input.length % rate = 0)
  let sn ← absorbLoop oracle width hp (chunksOf rate input) (List.replicate width (0 : F)) n
  Except.ok (sn.1.take rate, sn.2)

/-- The `.map(|res| res.try_into().expect(""))` pattern of the entry
points of src/src/circuit/poseidon.rs: converting the result vector into a
`RATE`-sized array, panicking when the length differs. -/
def tryIntoRate (rate : Nat) (l : List F) : Except (Failure ε) (List F) :=
  if l.length = rate then Except.ok l else Except.error Failure.panic

/-- `gadget_poseidon_hash` (src/src/circuit/poseidon.rs, lines 19-27):
state width 3, rate 2, `PoseidonParams::default()` (the table-derived
default construction is out of scope, so the provider keyed by
`(STATE_WIDTH, RATE)` is a parameter), then the fixed-length constrained
hash. -/
def gadget_poseidon_hash (provider : Nat → Nat → PoseidonParams F)
    (oracle : Nat → Option ε) (input : List F) (n : Nat) :
    Except (Failure ε) (List F × Nat) := do
  let sn ← circuit_generic_hash oracle 3 2 ((provider 3 2).toHashParams) input n
  let r ← tryIntoRate 2 sn.1
  Except.ok (r, sn.2)

/-- `gadget_rescue_hash_var_length` (src/src/circuit/poseidon.rs, lines
33-42): despite its name it constructs `PoseidonParams::default()` with
state width 3 and rate 2 and runs the variable-length constrained hash. -/
def gadget_rescue_hash_var_length (provider : Nat → Nat → PoseidonParams F)
    (oracle : Nat → Option ε) (input : List F) (n : Nat) :
    Except (Failure ε) (List F × Nat) := do
  let sn ← circuit_generic_hash_var_length oracle 3 2 ((provider 3 2).toHashParams) input n
  let r ← tryIntoRate 2 sn.1
  Except.ok (r, sn.2)

/-- `gadget_generic_rescue_hash` (src/src/circuit/poseidon.rs, lines
44-56): despite its name it constructs `PoseidonParams::default()` for the
given width and rate and runs the fixed-length constrained hash. -/
def gadget_generic_rescue_hash (provider : Nat → Nat → PoseidonParams F)
    (width rate : Nat) (oracle : Nat → Option ε) (input : List F) (n : Nat) :
    Except (Failure ε) (List F × Nat) := do
  let sn ← circuit_generic_hash oracle width rate ((provider width rate).toHashParams) input n
  let r ← tryIntoRate rate sn.1
  Except.ok (r, sn.2)

/-- `gadget_generic_rescue_hash_var_length` (src/src/circuit/poseidon.rs,
lines 58-69): despite its name it constructs `PoseidonParams::default()`
for the given width and rate and runs the variable-length constrained
hash. -/
def gadget_generic_rescue_hash_var_length
    (provider : Nat → Nat → PoseidonParams F) (width rate : Nat)
    (oracle : Nat → Option ε) (input : List F) (n : Nat) :
    Except (Failure ε) (List F × Nat) := do
  let sn ← circuit_generic_hash_var_length oracle width rate
      ((provider width rate).toHashParams) input n
  let r ← tryIntoRate rate sn.1
  Except.ok (r, sn.2)

/-! Concrete example data over `ℤ`, used to exhibit concrete runs. -/

/-- A small well-formed Poseidon parameter set: width 2, 2 full rounds,
1 partial round, identity matrices. -/
def pEx : PoseidonParams ℤ where
  full_rounds := 2
  partial_rounds := 1
  round_constants := [[1, 1], [1, 1], [1, 1]]
  mds_matrix := [[1, 0], [0, 1]]
  m_prime := [[1, 0], [0, 1]]
  sparse_matrixes := [[[1, 0], [0, 1]]]
  optimized_round_constants := [[0, 1], [0, 0], [1, 0]]

/-- `pEx` with an even (2) number of partial rounds. -/
def pEx9 : PoseidonParams ℤ :=
  { pEx with
    partial_rounds := 2
    sparse_matrixes := [[[1, 0], [0, 1]], [[1, 0], [0, 1]]] }

/-- `pEx` with an odd (3) number of full rounds. -/
def pOdd : PoseidonParams ℤ := { pEx with full_rounds := 3 }

/-- A well-formed Poseidon parameter set with 3 partial rounds, so that
its run contains one merged pair (and hence one materialization step). -/
def pEx3 : PoseidonParams ℤ where
  full_rounds := 2
  partial_rounds := 3
  round_constants := []
  mds_matrix := [[1, 0], [0, 1]]
  m_prime := [[1, 0], [0, 1]]
  sparse_matrixes := [[[1, 0], [0, 1]], [[1, 0], [0, 1]], [[1, 0], [0, 1]]]
  optimized_round_constants := [[0, 0], [0, 0], [0, 0], [0, 0], [0, 0]]

/-- A backend oracle signalling a synthesis failure (error value `7`)
exactly at the 6th backend operation — which, in a run of `pEx3` at width
2, is the first materialization allocation of the merged pair. -/
def failAt5 : Nat → Option Nat := fun k => if k = 5 then some 7 else none

/-- A small Rescue parameter set: 1 full-round unit (2 rounds), 3 constant
vectors. -/
def rEx : RescueParams ℤ where
  full_rounds := 1
  round_constants := [[1, 0], [0, 0], [0, 1]]
  mds_matrix := [[1, 0], [0, 1]]
  alpha := 3
  alpha_inv := 5

/-- `rEx` with an extra (never consumed) constant vector appended. -/
def rEx2 : RescueParams ℤ where
  full_rounds := 1
  round_constants := [[1, 0], [0, 0], [0, 1], [9, 9]]
  mds_matrix := [[1, 0], [0, 1]]
  alpha := 3
  alpha_inv := 5

/-- The constants of `rEx` as a total function of the round index. -/
def cEx : Nat → List ℤ := fun r => rEx.round_constants.getD r []

/-! Basic reduction lemmas for the constrained-run monad. -/

@[simp] theorem orPanic_some (a : α) :
    (orPanic (some a) : Except (Failure ε) α) = Except.ok a := rfl

@[simp] theorem orPanic_none :
    (orPanic (none : Option α) : Except (Failure ε) α) = Except.error Failure.panic := rfl

@[simp] theorem ok_bind (a : α) (f : α → Except (Failure ε) β) :
    (Except.ok a >>= f : Except (Failure ε) β) = f a := rfl

@[simp] theorem error_bind (e : Failure ε) (f : α → Except (Failure ε) β) :
    (Except.error e >>= f : Except (Failure ε) β) = Except.error e := rfl

theorem panicUnless_pos {c : Prop} [Decidable c] (h : c) :
    (panicUnless c : Except (Failure ε) Unit) = Except.ok () := if_pos h

theorem panicUnless_neg {c : Prop} [Decidable c] (h : ¬c) :
    (panicUnless c : Except (Failure ε) Unit) = Except.error Failure.panic := if_neg h

theorem bind_eq_ok {ma : Except (Failure ε) α} {f : α → Except (Failure ε) β}
    {b : β} (h : (ma >>= f) = Except.ok b) :
    ∃ a, ma = Except.ok a ∧ f a = Except.ok b := by
  cases ma with
  | error e => exact absurd h (by simp)
  | ok a => exact ⟨a, rfl, h⟩

/-- C7: for every `RescueParams` value, the three family-inapplicable
accessors (`number_of_partial_rounds`, `optimized_mds_matrixes`,
`optimized_round_constants`) never return a value, while the
Rescue-applicable accessors (`hash_family`, `mds_matrix`,
`number_of_full_rounds`, `alpha`, `alpha_inv`, and `constants_of_round`
exactly on the in-range indices) return normally. -/
theorem rescue_params_accessor_contract (p : RescueParams F) :
    p.toHashParams.number_of_partial_rounds = none ∧
    p.toHashParams.optimized_mds_matrixes = none ∧
    p.toHashParams.optimized_round_constants = none ∧
    p.toHashParams.hash_family = some HashFamily.Rescue ∧
    p.toHashParams.mds_matrix = some p.mds_matrix ∧
    p.toHashParams.number_of_full_rounds = some p.full_rounds ∧
    p.toHashParams.alpha = some p.alpha ∧
    p.toHashParams.alpha_inv = some p.alpha_inv ∧
    ∀ i, (p.toHashParams.constants_of_round i).isSome ↔ i < p.round_constants.length := by
  refine ⟨rfl, rfl, rfl, rfl, rfl, rfl, rfl, rfl, fun i => ?_⟩
  simp only [RescueParams.toHashParams, List.get?_eq_getElem?]
  constructor
  · intro h
    rcases Option.isSome_iff_exists.mp h with ⟨a, ha⟩
    exact (List.getElem?_eq_some.mp ha).1
  · intro h
    simp [List.getElem?_eq_getElem h]

/-- C8: the three Rescue-named circuit entry points construct
`PoseidonParams` (family tag Poseidon, not Rescue) and therefore run the
constrained Poseidon hash: the generic fixed-length one at width 3 / rate
2 coincides with `gadget_poseidon_hash`, the width-3/rate-2 var-length one
coincides with the generic var-length one at width 3 / rate 2, the
sponge's family dispatch on their parameters is exactly
`gadget_poseidon_round_function`, and `rescue_round_function`'s
constrained counterpart refuses their parameters outright. -/
theorem rescue_named_gadget_entry_points_are_poseidon
    (provider : Nat → Nat → PoseidonParams F) (width rate : Nat)
    (oracle : Nat → Option ε) (input : List F) (n : Nat) :
    ((provider width rate).toHashParams).hash_family = some HashFamily.Poseidon ∧
    ((provider width rate).toHashParams).hash_family ≠ some HashFamily.Rescue ∧
    gadget_generic_rescue_hash provider 3 2 oracle input n
      = gadget_poseidon_hash provider oracle input n ∧
    gadget_rescue_hash_var_length provider oracle input n
      = gadget_generic_rescue_hash_var_length provider 3 2 oracle input n ∧
    (∀ st m, gadget_generic_round_function oracle width
        ((provider width rate).toHashParams) st m
      = gadget_poseidon_round_function oracle width
        ((provider width rate).toHashParams) st m) ∧
    (∀ st m, gadget_rescue_round_function oracle
        ((provider width rate).toHashParams) st m
      = Except.error Failure.panic) := by
  refine ⟨rfl, by simp [PoseidonParams.toHashParams], rfl, rfl,
    fun st m => rfl, fun st m => ?_⟩
  simp only [gadget_rescue_round_function, PoseidonParams.toHashParams,
    orPanic_some, ok_bind]
  rw [panicUnless_neg (by simp)]
  rfl

/-- C6: `gadget_poseidon_round_function` panics, for every constraint
system state and every input state, whenever the family tag is not
Poseidon or the number of full rounds is odd — the checks run on every
invocation, before any round (the result is a panic even under an oracle
that would fail every backend operation, so no circuit operation was
attempted). -/
theorem gadget_poseidon_precondition_checks (hp : HashParams F)
    (fam : HashFamily) (oracle : Nat → Option ε) (width : Nat)
    (st : List F) (n : Nat) (hfam : hp.hash_family = some fam)
    (hbad : fam ≠ HashFamily.Poseidon ∨
      ∃ fr, hp.number_of_full_rounds = some fr ∧ fr % 2 = 1) :
    gadget_poseidon_round_function oracle width hp st n
      = Except.error Failure.panic := by
  simp only [gadget_poseidon_round_function, hfam, orPanic_some, ok_bind]
  by_cases hP : fam = HashFamily.Poseidon
  · rcases hbad with hb | ⟨fr, hfr, hodd⟩
    · exact absurd hP hb
    · rw [panicUnless_pos hP, ok_bind, hfr, orPanic_some, ok_bind,
        panicUnless_neg (by omega), error_bind]
  · rw [panicUnless_neg hP, error_bind]

/-! The native Rescue round function. -/

theorem osome_bind (a : α) (f : α → Option β) : Option.bind (some a) f = f a := rfl

theorem onone_bind (f : α → Option β) : Option.bind (none : Option α) f = none := rfl

theorem rescueRoundsLoop_eq (hp : HashParams F) (mds : List (List F))
    (a ai : Nat) (c : Nat → List F) (hmds : hp.mds_matrix = some mds)
    (ha : hp.alpha = some a) (hai : hp.alpha_inv = some ai) :
    ∀ (l : List Nat) (st : List F),
      (∀ r ∈ l, hp.constants_of_round (r + 1) = some (c (r + 1))) →
      rescueRoundsLoop hp l st = some
        (l.foldl (fun s r =>
          addRoundConstants
            (matVecMul mds (sboxPow (if r % 2 = 0 then ai else a) s)) (c (r + 1))) st) := by
  intro l
  induction l with
  | nil => intro st _; rfl
  | cons r rest ih =>
    intro st hc
    have hcr := hc r (List.mem_cons_self r rest)
    have he : (if r % 2 = 0 then hp.alpha_inv else hp.alpha)
        = some (if r % 2 = 0 then ai else a) := by
      by_cases h : r % 2 = 0
      · rw [if_pos h, if_pos h, hai]
      · rw [if_neg h, if_neg h, ha]
    simp only [rescueRoundsLoop, List.foldl_cons, he, osome_bind, hmds, hcr]
    exact ih _ (fun r' hr' => hc r' (List.mem_cons_of_mem _ hr'))

/-- C2: for every parameter set whose accessors answer with family tag
Rescue, full-round count `full`, a dense MDS matrix, exponents
`alpha`/`alpha_inv`, and constant vectors `c r` for every round index
`r ≤ 2 * full`, `rescue_round_function` computes exactly the spec's
schedule `rescueSpec`: add the round-0 constants, then for each round `r`
in `0 .. 2*full` apply the S-box with exponent `alpha_inv` for even `r`
and `alpha` for odd `r` to every lane, multiply by the dense MDS matrix,
and add the constants of round `r + 1`. -/
theorem rescue_round_structure (hp : HashParams F) (full : Nat)
    (mds : List (List F)) (a ai : Nat) (c : Nat → List F) (st : List F)
    (hfam : hp.hash_family = some HashFamily.Rescue)
    (hfull : hp.number_of_full_rounds = some full)
    (hmds : hp.mds_matrix = some mds)
    (ha : hp.alpha = some a) (hai : hp.alpha_inv = some ai)
    (hc : ∀ r, r ≤ 2 * full → hp.constants_of_round r = some (c r)) :
    rescue_round_function hp st = some (rescueSpec full mds a ai c st) := by
  simp only [rescue_round_function, hfam, osome_bind, if_pos rfl,
    hc 0 (Nat.zero_le _), hfull]
  rw [rescueRoundsLoop_eq hp mds a ai c hmds ha hai _ _
    (fun r hr => hc (r + 1) (by have := List.mem_range.mp hr; omega))]
  rfl

theorem rescueRoundsLoop_isSome (p : RescueParams F) :
    ∀ (m k : Nat) (st : List F),
      (rescueRoundsLoop p.toHashParams (List.range' k m) st).isSome = true ↔
        (m = 0 ∨ k + m < p.round_constants.length) := by
  intro m
  induction m with
  | zero => intro k st; simp [rescueRoundsLoop]
  | succ m ih =>
    intro k st
    rw [List.range'_succ]
    have he : (if k % 2 = 0 then p.toHashParams.alpha_inv else p.toHashParams.alpha)
        = some (if k % 2 = 0 then p.alpha_inv else p.alpha) := by
      by_cases h : k % 2 = 0 <;> simp [h, RescueParams.toHashParams]
    simp only [rescueRoundsLoop, he, osome_bind]
    have hm : p.toHashParams.mds_matrix = some p.mds_matrix := rfl
    rw [hm, osome_bind]
    rcases h : p.toHashParams.constants_of_round (k + 1) with _ | cval
    · have hlen : p.round_constants.length ≤ k + 1 := by
        have := h
        simp only [RescueParams.toHashParams, List.get?_eq_getElem?,
          List.getElem?_eq_none_iff] at this
        exact this
      simp only [onone_bind, Option.isSome_none]
      constructor
      · intro hfalse; exact absurd hfalse (by simp)
      · intro hr; rcases hr with hr | hr <;> omega
    · have hlt : k + 1 < p.round_constants.length := by
        have := h
        simp only [RescueParams.toHashParams, List.get?_eq_getElem?] at this
        exact (List.getElem?_eq_some.mp this).1
      rw [osome_bind, ih (k + 1)]
      omega

theorem rescueRoundsLoop_congr (p q : RescueParams F)
    (hm : q.mds_matrix = p.mds_matrix) (haq : q.alpha = p.alpha)
    (haiq : q.alpha_inv = p.alpha_inv) :
    ∀ (l : List Nat) (st : List F),
      (∀ r ∈ l, q.round_constants.get? (r + 1) = p.round_constants.get? (r + 1)) →
      rescueRoundsLoop q.toHashParams l st = rescueRoundsLoop p.toHashParams l st := by
  intro l
  induction l with
  | nil => intro st _; rfl
  | cons r rest ih =>
    intro st hc
    have hcr := hc r (List.mem_cons_self r rest)
    have heq : (if r % 2 = 0 then q.toHashParams.alpha_inv else q.toHashParams.alpha)
        = (if r % 2 = 0 then p.toHashParams.alpha_inv else p.toHashParams.alpha) := by
      by_cases h : r % 2 = 0 <;> simp [h, RescueParams.toHashParams, haq, haiq]
    have hmeq : q.toHashParams.mds_matrix = some p.mds_matrix := by
      simp [RescueParams.toHashParams, hm]
    have hmp : p.toHashParams.mds_matrix = some p.mds_matrix := rfl
    have hceq : q.toHashParams.constants_of_round (r + 1)
        = p.toHashParams.constants_of_round (r + 1) := hcr
    simp only [rescueRoundsLoop, heq, hmeq, hmp, hceq]
    rcases hp' : (if r % 2 = 0 then p.toHashParams.alpha_inv else p.toHashParams.alpha)
      with _ | e
    · rfl
    · simp only [osome_bind]
      rcases hcv : p.toHashParams.constants_of_round (r + 1) with _ | cval
      · rfl
      · simp only [osome_bind]
        exact ih _ (fun r' hr' => hc r' (List.mem_cons_of_mem _ hr'))

/-- C5: `rescue_round_function` over the concrete `RescueParams`
implementation (i) completes without failure exactly when the constant
table holds at least `2 * full_rounds + 1` vectors (an undersized table
panics), (ii) panics whenever the family tag answers anything other than
Rescue, and (iii) reads only the first `2 * full_rounds + 1` constant
vectors: any parameter set agreeing on those (and on the MDS matrix and
the exponents) produces the same result. -/
theorem rescue_round_consumes (p : RescueParams F) (st : List F) :
    ((rescue_round_function p.toHashParams st).isSome = true ↔
      2 * p.full_rounds + 1 ≤ p.round_constants.length) ∧
    (∀ (hp : HashParams F) (fam : HashFamily), hp.hash_family = some fam →
      fam ≠ HashFamily.Rescue → rescue_round_function hp st = none) ∧
    (∀ q : RescueParams F, q.full_rounds = p.full_rounds →
      q.mds_matrix = p.mds_matrix → q.alpha = p.alpha →
      q.alpha_inv = p.alpha_inv →
      (∀ r, r < 2 * p.full_rounds + 1 →
        q.round_constants.get? r = p.round_constants.get? r) →
      rescue_round_function q.toHashParams st
        = rescue_round_function p.toHashParams st) := by
  refine ⟨?_, ?_, ?_⟩
  · simp only [rescue_round_function]
    have hfam : p.toHashParams.hash_family = some HashFamily.Rescue := rfl
    have hfull : p.toHashParams.number_of_full_rounds = some p.full_rounds := rfl
    rw [hfam, osome_bind, if_pos rfl, hfull]
    rcases h0 : p.toHashParams.constants_of_round 0 with _ | c0
    · have hlen : p.round_constants.length ≤ 0 := by
        have := h0
        simp only [RescueParams.toHashParams, List.get?_eq_getElem?,
          List.getElem?_eq_none_iff] at this
        exact this
      simp only [onone_bind, Option.isSome_none]
      constructor
      · intro hfalse; exact absurd hfalse (by simp)
      · intro hr; omega
    · have hlt : 0 < p.round_constants.length := by
        have := h0
        simp only [RescueParams.toHashParams, List.get?_eq_getElem?] at this
        exact (List.getElem?_eq_some.mp this).1
      rw [osome_bind, osome_bind, List.range_eq_range',
        rescueRoundsLoop_isSome p (2 * p.full_rounds) 0 (addRoundConstants st c0)]
      omega
  · intro hp fam hfam hne
    simp only [rescue_round_function, hfam, osome_bind, if_neg hne]
  · intro q hf hm haq haiq hagree
    simp only [rescue_round_function]
    have hfq : q.toHashParams.hash_family = some HashFamily.Rescue := rfl
    have hfp : p.toHashParams.hash_family = some HashFamily.Rescue := rfl
    rw [hfq, hfp, osome_bind, osome_bind, if_pos rfl, if_pos rfl]
    have hc0 : q.toHashParams.constants_of_round 0
        = p.toHashParams.constants_of_round 0 := hagree 0 (by omega)
    have hfullq : q.toHashParams.number_of_full_rounds = some q.full_rounds := rfl
    have hfullp : p.toHashParams.number_of_full_rounds = some p.full_rounds := rfl
    rw [hc0]
    rcases hcv : p.toHashParams.constants_of_round 0 with _ | c0
    · rfl
    · rw [osome_bind, osome_bind, hfullq, hfullp, osome_bind, osome_bind, hf]
      exact rescueRoundsLoop_congr p q hm haq haiq _ _
        (fun r hr => hagree (r + 1) (by have := List.mem_range.mp hr; omega))

/-! Length bookkeeping for the state. -/

theorem addRoundConstants_length (st : List F) :
    ∀ c : List F, (addRoundConstants st c).length = st.length := by
  induction st with
  | nil => intro c; cases c <;> rfl
  | cons s st ih =>
    intro c
    cases c with
    | nil => rfl
    | cons c cs => simp [addRoundConstants, ih]

theorem matVecMul_length (m : List (List F)) (v : List F) :
    (matVecMul m v).length = m.length := by
  simp [matVecMul]

theorem lane0Pow5_length (st : List F) : (lane0Pow5 st).length = st.length := by
  cases st <;> simp [lane0Pow5]

theorem lane0AddC_length (st : List F) (c : F) :
    (lane0AddC st c).length = st.length := by
  cases st <;> simp [lane0AddC]

theorem specPartialRound_length (m : List (List F)) (c : F) (st : List F) :
    (specPartialRound m c st).length = m.length := by
  simp [specPartialRound, matVecMul_length]

/-! Characterizations of the constrained primitives: their value under a
never-failing backend, and what a successful run implies under any
backend. -/

theorem orPanic_ok {o : Option α} {a : α}
    (h : (orPanic o : Except (Failure ε) α) = Except.ok a) : o = some a := by
  cases o with
  | none => exact absurd h (by simp [orPanic])
  | some b => simpa [orPanic] using h

theorem sbox_quintic_noFail (st : List F) (n : Nat) :
    sbox_quintic (noFailure (ε := ε)) st n
      = Except.ok (st.map (fun x => x ^ 5), n + 1) := rfl

theorem sbox_quintic_ok {oracle : Nat → Option ε} {st : List F} {n : Nat}
    {sn : List F × Nat} (h : sbox_quintic oracle st n = Except.ok sn) :
    sn = (st.map (fun x => x ^ 5), n + 1) := by
  unfold sbox_quintic at h
  cases ho : oracle n with
  | none => rw [ho] at h; exact (Except.ok.injEq _ _ ▸ h).symm
  | some e => rw [ho] at h; exact absurd h (by simp)

theorem matrix_vector_product_noFail (m : List (List F)) (v : List F) (n : Nat) :
    matrix_vector_product (noFailure (ε := ε)) m v n
      = Except.ok (matVecMul m v, n + 1) := rfl

theorem matrix_vector_product_ok {oracle : Nat → Option ε}
    {m : List (List F)} {v : List F} {n : Nat} {sn : List F × Nat}
    (h : matrix_vector_product oracle m v n = Except.ok sn) :
    sn = (matVecMul m v, n + 1) := by
  unfold matrix_vector_product at h
  cases ho : oracle n with
  | none => rw [ho] at h; exact (Except.ok.injEq _ _ ▸ h).symm
  | some e => rw [ho] at h; exact absurd h (by simp)

theorem take1_map_pow5_append (st : List F) :
    (st.take 1).map (fun x => x ^ 5) ++ st.drop 1 = lane0Pow5 st := by
  cases st <;> simp [lane0Pow5]

theorem sboxLane0_noFail (st : List F) (n : Nat) :
    sboxLane0 (noFailure (ε := ε)) st n = Except.ok (lane0Pow5 st, n + 1) := by
  simp only [sboxLane0, sbox_quintic_noFail, ok_bind, take1_map_pow5_append]

theorem sboxLane0_ok {oracle : Nat → Option ε} {st : List F} {n : Nat}
    {sn : List F × Nat} (h : sboxLane0 oracle st n = Except.ok sn) :
    sn = (lane0Pow5 st, n + 1) := by
  unfold sboxLane0 at h
  obtain ⟨hn, hsb, h⟩ := bind_eq_ok h
  obtain rfl := sbox_quintic_ok hsb
  obtain rfl := Except.ok.inj h
  cases st <;> simp [lane0Pow5]

theorem add_assign_lane0_total {st : List F} (h : st ≠ []) (c : F) :
    add_assign_lane0 (ε := ε) st (some c) = Except.ok (lane0AddC st c) := by
  cases st with
  | nil => exact absurd rfl h
  | cons x r => rfl

theorem add_assign_lane0_ok {st : List F} {oc : Option F} {st' : List F}
    (h : add_assign_lane0 (ε := ε) st oc = Except.ok st') :
    ∃ x r c, st = x :: r ∧ oc = some c ∧ st' = (x + c) :: r := by
  cases st with
  | nil => exact absurd h (by simp [add_assign_lane0])
  | cons x r =>
    cases oc with
    | none => exact absurd h (by simp [add_assign_lane0])
    | some c =>
      refine ⟨x, r, c, rfl, rfl, ?_⟩
      simpa [add_assign_lane0] using (Except.ok.injEq _ _ ▸ h).symm

theorem into_num_materialize_noFail :
    ∀ (st : List F) (n : Nat),
      into_num_materialize (noFailure (ε := ε)) st n
        = Except.ok (st, n + st.length) := by
  intro st
  induction st with
  | nil => intro n; rfl
  | cons x rest ih =>
    intro n
    simp only [into_num_materialize, noFailure, ih, ok_bind, List.length_cons]
    have harith : n + (rest.length + 1) = n + 1 + rest.length := by omega
    rw [harith]

theorem into_num_materialize_ok {oracle : Nat → Option ε} :
    ∀ {st : List F} {n : Nat} {sn : List F × Nat}
      (_ : into_num_materialize oracle st n = Except.ok sn),
      sn = (st, n + st.length) := by
  intro st
  induction st with
  | nil => intro n sn h; simpa [into_num_materialize] using (Except.ok.injEq _ _ ▸ h).symm
  | cons x rest ih =>
    intro n sn h
    unfold into_num_materialize at h
    cases ho : oracle n with
    | some e => rw [ho] at h; exact absurd h (by simp)
    | none =>
      rw [ho] at h
      obtain ⟨sn', hrec, h⟩ := bind_eq_ok h
      have := ih hrec
      subst this
      have h' := (Except.ok.injEq _ _ ▸ h).symm
      rw [h']
      simp
      omega

/-! The full-round loop: its value under a never-failing backend, and the
value a successful run must have produced under any backend. -/

theorem nthD_of_get? {l : List α} {i : Nat} {a d : α} (h : l.get? i = some a) :
    nthD l i d = a := by simp only [nthD, h, Option.getD_some]

theorem fullRoundsLoop_noFail (hp : HashParams F) (orc : List (List F))
    (mds : List (List F)) (hmds : hp.mds_matrix = some mds) :
    ∀ (l : List Nat) (st : List F) (n : Nat), (∀ r ∈ l, r < orc.length) →
      fullRoundsLoop (noFailure (ε := ε)) hp orc l st n
        = Except.ok
            (l.foldl (fun s r => specFullRound mds (nthD orc r []) s) st,
             n + 2 * l.length) := by
  intro l
  induction l with
  | nil => intro st n _; simp [fullRoundsLoop]
  | cons r rest ih =>
    intro st n hb
    have hr : r < orc.length := hb r (List.mem_cons_self r rest)
    have hrc : orc.get? r = some orc[r] := by
      simp [List.get?_eq_getElem?, List.getElem?_eq_getElem hr]
    simp only [fullRoundsLoop, hrc, orPanic_some, ok_bind, sbox_quintic_noFail,
      hmds, matrix_vector_product_noFail, List.foldl_cons]
    rw [ih _ _ (fun r' hr' => hb r' (List.mem_cons_of_mem _ hr'))]
    rw [nthD_of_get? hrc]
    have harith : n + 1 + 1 + 2 * rest.length = n + 2 * (rest.length + 1) := by omega
    rw [harith, List.length_cons]
    rfl

theorem fullRoundsLoop_ok (hp : HashParams F) (orc : List (List F))
    (mds : List (List F)) (hmds : hp.mds_matrix = some mds)
    (oracle : Nat → Option ε) :
    ∀ (l : List Nat) (st : List F) (n : Nat) (out : List F) (n' : Nat),
      fullRoundsLoop oracle hp orc l st n = Except.ok (out, n') →
      out = l.foldl (fun s r => specFullRound mds (nthD orc r []) s) st := by
  intro l
  induction l with
  | nil =>
    intro st n out n' h
    have h2 : st = out := congrArg Prod.fst (Except.ok.inj h)
    simp [← h2]
  | cons r rest ih =>
    intro st n out n' h
    unfold fullRoundsLoop at h
    obtain ⟨rc, hrc, h⟩ := bind_eq_ok h
    have hrc' := orPanic_ok hrc
    obtain ⟨sn, hsb, h⟩ := bind_eq_ok h
    obtain rfl := sbox_quintic_ok hsb
    obtain ⟨mds', hmds', h⟩ := bind_eq_ok h
    have hmm : mds' = mds := by
      have h3 := orPanic_ok hmds'
      rw [hmds] at h3
      exact (Option.some.inj h3).symm
    subst hmm
    obtain ⟨sn2, hmv, h⟩ := bind_eq_ok h
    obtain rfl := matrix_vector_product_ok hmv
    rw [List.foldl_cons, nthD_of_get? hrc']
    exact ih _ _ _ _ h

/-! The merged-pair partial-round loop. -/

theorem lane0Pow5_ne_nil {st : List F} (h : st ≠ []) : lane0Pow5 st ≠ [] := by
  cases st with
  | nil => exact absurd rfl h
  | cons x r => simp [lane0Pow5]

theorem add_assign_lane0_none (st : List F) :
    add_assign_lane0 (ε := ε) st none = Except.error Failure.panic := by
  cases st <;> rfl

theorem partialFold_cons (cm : List F × List (List F))
    (l : List (List F × List (List F))) (st : List F) :
    partialFold (cm :: l) st
      = partialFold l (specPartialRound cm.2 (nthD cm.1 0 0) st) := rfl

/-- One iteration of the merged-pair loop under a never-failing backend:
two partial rounds, then the materialization (`width` allocations that
leave the values unchanged). -/
theorem pairRoundsLoop_cons_noFail (a b : List F) (c d : List (List F))
    (rest : List (List (List F) × List (List (List F)))) (st : List F)
    (n : Nat) (ha : a ≠ []) (hb : b ≠ []) (hst : st ≠ [])
    (hst2 : specPartialRound c (nthD a 0 0) st ≠ []) :
    pairRoundsLoop (noFailure (ε := ε)) (([a, b], [c, d]) :: rest) st n
      = pairRoundsLoop (noFailure (ε := ε)) rest
          (specPartialRound d (nthD b 0 0) (specPartialRound c (nthD a 0 0) st))
          (n + 2 +
            (specPartialRound d (nthD b 0 0) (specPartialRound c (nthD a 0 0) st)).length) := by
  obtain ⟨a0, as, rfl⟩ := List.exists_cons_of_ne_nil ha
  obtain ⟨b0, bs, rfl⟩ := List.exists_cons_of_ne_nil hb
  have hn1 : nthD (a0 :: as) 0 (0 : F) = a0 := rfl
  have hn2 : nthD (b0 :: bs) 0 (0 : F) = b0 := rfl
  rw [hn1] at hst2
  rw [hn1, hn2]
  simp only [pairRoundsLoop, sboxLane0_noFail, ok_bind, List.get?_cons_zero,
    List.get?_cons_succ, osome_bind]
  rw [add_assign_lane0_total (lane0Pow5_ne_nil hst) a0, ok_bind]
  simp only [orPanic_some, ok_bind]
  have hmul1 : mul_by_sparse_matrix c (lane0AddC (lane0Pow5 st) a0)
      = specPartialRound c a0 st := rfl
  rw [hmul1, add_assign_lane0_total (lane0Pow5_ne_nil hst2) b0, ok_bind]
  have hmul2 : mul_by_sparse_matrix d (lane0AddC (lane0Pow5 (specPartialRound c a0 st)) b0)
      = specPartialRound d b0 (specPartialRound c a0 st) := rfl
  rw [hmul2, into_num_materialize_noFail, ok_bind]

/-- The merged-pair loop on a singleton chunk (the last chunk of an even
partial-round count): the access to the second element of the chunk is an
out-of-bounds index, so the loop panics — unconditionally: any earlier
missing piece (empty state, empty constant vector) also panics. -/
theorem pairRoundsLoop_single_panic (a : List F) (c : List (List F))
    (rest : List (List (List F) × List (List (List F)))) (st : List F) (n : Nat) :
    pairRoundsLoop (noFailure (ε := ε)) (([a], [c]) :: rest) st n
      = Except.error Failure.panic := by
  simp only [pairRoundsLoop, sboxLane0_noFail, ok_bind, List.get?_cons_zero,
    osome_bind]
  cases hst : lane0Pow5 st with
  | nil => rfl
  | cons x r =>
    cases a with
    | nil => rfl
    | cons a0 as =>
      simp only [List.get?_cons_zero, osome_bind, add_assign_lane0, ok_bind,
        orPanic_some, sboxLane0_noFail]
      cases lane0Pow5 (mul_by_sparse_matrix c ((x + a0) :: r)) <;> rfl

/-- The merged-pair loop under a never-failing backend, on evenly many
rounds: it computes the flat per-round fold, performing `2 + width`
backend operations per pair. -/
theorem pairRoundsLoop_noFail (width : Nat) (hw : 1 ≤ width) :
    ∀ (l1 : List (List F)) (l2 : List (List (List F))) (st : List F) (n : Nat),
      l1.length = l2.length → l1.length % 2 = 0 →
      (∀ c ∈ l1, c ≠ []) → (∀ m ∈ l2, m.length = width) → st.length = width →
      pairRoundsLoop (noFailure (ε := ε)) ((chunks2 l1).zip (chunks2 l2)) st n
        = Except.ok (partialFold (l1.zip l2) st, n + (l1.length / 2) * (2 + width))
  | [], l2, st, n => by
    intro hlen heven hc hm hst
    have h2 : l2 = [] := List.eq_nil_of_length_eq_zero (by simpa using hlen.symm)
    subst h2
    simp [chunks2, pairRoundsLoop, partialFold]
  | [a], l2, st, n => by
    intro hlen heven hc hm hst
    simp at heven
  | a :: b :: t1, l2, st, n => by
    intro hlen heven hc hm hst
    rcases l2 with _ | ⟨c, l2⟩
    · simp at hlen
    rcases l2 with _ | ⟨d, t2⟩
    · simp at hlen
    have hchunks : chunks2 (a :: b :: t1) = [a, b] :: chunks2 t1 := rfl
    have hchunks2 : chunks2 (c :: d :: t2) = [c, d] :: chunks2 t2 := rfl
    rw [hchunks, hchunks2, List.zip_cons_cons]
    have ha : a ≠ [] := hc a (by simp)
    have hb : b ≠ [] := hc b (by simp)
    have hstne : st ≠ [] := by
      intro h; rw [h] at hst; simp at hst; omega
    have hlen1 : (specPartialRound c (nthD a 0 0) st).length = width := by
      rw [specPartialRound_length]; exact hm c (by simp)
    have hst2 : specPartialRound c (nthD a 0 0) st ≠ [] := by
      intro h; rw [h] at hlen1; simp at hlen1; omega
    rw [pairRoundsLoop_cons_noFail a b c d _ st n ha hb hstne hst2]
    have hlen2 : (specPartialRound d (nthD b 0 0) (specPartialRound c (nthD a 0 0) st)).length
        = width := by
      rw [specPartialRound_length]; exact hm d (by simp)
    rw [hlen2]
    rw [pairRoundsLoop_noFail width hw t1 t2 _ _
      (by simpa using hlen) (by simp at heven ⊢; omega)
      (fun x hx => hc x (by simp [hx])) (fun x hx => hm x (by simp [hx])) hlen2]
    rw [List.zip_cons_cons, List.zip_cons_cons, partialFold_cons, partialFold_cons]
    have harith : n + 2 + width + t1.length / 2 * (2 + width)
        = n + (a :: b :: t1).length / 2 * (2 + width) := by
      simp only [List.length_cons]
      have h2 : (t1.length + 1 + 1) / 2 = t1.length / 2 + 1 := by omega
      rw [h2]
      ring
    rw [harith]

/-- The merged-pair loop under a never-failing backend, on an odd number
of rounds: the final chunk is a singleton and the loop panics. -/
theorem pairRoundsLoop_noFail_odd_panic (width : Nat) (hw : 1 ≤ width) :
    ∀ (l1 : List (List F)) (l2 : List (List (List F))) (st : List F) (n : Nat),
      l1.length = l2.length → l1.length % 2 = 1 →
      (∀ c ∈ l1, c ≠ []) → (∀ m ∈ l2, m.length = width) → st.length = width →
      pairRoundsLoop (noFailure (ε := ε)) ((chunks2 l1).zip (chunks2 l2)) st n
        = Except.error Failure.panic
  | [], _, _, _ => by intro _ hodd _ _ _; simp at hodd
  | [a], l2, st, n => by
    intro hlen hodd hc hm hst
    rcases l2 with _ | ⟨c, l2⟩
    · simp at hlen
    rcases l2 with _ | ⟨d, t2⟩
    · exact pairRoundsLoop_single_panic a c [] st n
    · simp at hlen
  | a :: b :: t1, l2, st, n => by
    intro hlen hodd hc hm hst
    rcases l2 with _ | ⟨c, l2⟩
    · simp at hlen
    rcases l2 with _ | ⟨d, t2⟩
    · simp at hlen
    have hchunks : chunks2 (a :: b :: t1) = [a, b] :: chunks2 t1 := rfl
    have hchunks2 : chunks2 (c :: d :: t2) = [c, d] :: chunks2 t2 := rfl
    rw [hchunks, hchunks2, List.zip_cons_cons]
    have ha : a ≠ [] := hc a (by simp)
    have hb : b ≠ [] := hc b (by simp)
    have hstne : st ≠ [] := by
      intro h; rw [h] at hst; simp at hst; omega
    have hlen1 : (specPartialRound c (nthD a 0 0) st).length = width := by
      rw [specPartialRound_length]; exact hm c (by simp)
    have hst2 : specPartialRound c (nthD a 0 0) st ≠ [] := by
      intro h; rw [h] at hlen1; simp at hlen1; omega
    rw [pairRoundsLoop_cons_noFail a b c d _ st n ha hb hstne hst2]
    have hlen2 : (specPartialRound d (nthD b 0 0) (specPartialRound c (nthD a 0 0) st)).length
        = width := by
      rw [specPartialRound_length]; exact hm d (by simp)
    exact pairRoundsLoop_noFail_odd_panic width hw t1 t2 _ _
      (by simpa using hlen) (by simp at hodd ⊢; omega)
      (fun x hx => hc x (by simp [hx])) (fun x hx => hm x (by simp [hx])) hlen2

/-- A successful run of the merged-pair loop (under any backend, on evenly
many rounds) must have computed the flat per-round fold. -/
theorem pairRoundsLoop_ok (oracle : Nat → Option ε) :
    ∀ (l1 : List (List F)) (l2 : List (List (List F))) (st : List F) (n : Nat)
      (out : List F) (n' : Nat),
      l1.length = l2.length → l1.length % 2 = 0 →
      pairRoundsLoop oracle ((chunks2 l1).zip (chunks2 l2)) st n = Except.ok (out, n') →
      out = partialFold (l1.zip l2) st
  | [], l2, st, n => by
    intro out n' hlen heven h
    have h2 : l2 = [] := List.eq_nil_of_length_eq_zero (by simpa using hlen.symm)
    subst h2
    have h3 : pairRoundsLoop oracle [] st n = Except.ok (st, n) := rfl
    have h4 : (st, n) = (out, n') := Except.ok.inj (h3 ▸ h)
    have h5 : st = out := congrArg Prod.fst h4
    simp [partialFold, ← h5]
  | [a], l2, st, n => by
    intro out n' hlen heven h
    simp at heven
  | a :: b :: t1, l2, st, n => by
    intro out n' hlen heven h
    rcases l2 with _ | ⟨c, l2⟩
    · simp at hlen
    rcases l2 with _ | ⟨d, t2⟩
    · simp at hlen
    have hchunks : chunks2 (a :: b :: t1) = [a, b] :: chunks2 t1 := rfl
    have hchunks2 : chunks2 (c :: d :: t2) = [c, d] :: chunks2 t2 := rfl
    rw [hchunks, hchunks2, List.zip_cons_cons] at h
    unfold pairRoundsLoop at h
    obtain ⟨sn, hsb, h⟩ := bind_eq_ok h
    obtain rfl := sboxLane0_ok hsb
    obtain ⟨st1, hadd, h⟩ := bind_eq_ok h
    obtain ⟨x, r, c0, hx, hoc, rfl⟩ := add_assign_lane0_ok hadd
    have hx' : lane0Pow5 st = x :: r := hx
    have hoc' : (([a, b].get? 0).bind fun v => v.get? 0) = some c0 := hoc
    rw [List.get?_cons_zero, osome_bind] at hoc'
    have hnth1 : nthD a 0 (0 : F) = c0 := nthD_of_get? hoc'
    obtain ⟨sm0, hsm0, h⟩ := bind_eq_ok h
    have hc' : sm0 = c := by
      have h3 := orPanic_ok hsm0
      rw [List.get?_cons_zero] at h3
      exact (Option.some.inj h3).symm
    rw [hc'] at h
    obtain ⟨sn2, hsb2, h⟩ := bind_eq_ok h
    obtain rfl := sboxLane0_ok hsb2
    obtain ⟨st2, hadd2, h⟩ := bind_eq_ok h
    obtain ⟨y, s, c1, hy, hoc2, rfl⟩ := add_assign_lane0_ok hadd2
    have hy' : lane0Pow5 (mul_by_sparse_matrix c ((x + c0) :: r)) = y :: s := hy
    have hoc2' : (([a, b].get? 1).bind fun v => v.get? 0) = some c1 := hoc2
    rw [List.get?_cons_succ, List.get?_cons_zero, osome_bind] at hoc2'
    have hnth2 : nthD b 0 (0 : F) = c1 := nthD_of_get? hoc2'
    obtain ⟨sm1, hsm1, h⟩ := bind_eq_ok h
    have hd' : sm1 = d := by
      have h3 := orPanic_ok hsm1
      rw [List.get?_cons_succ, List.get?_cons_zero] at h3
      exact (Option.some.inj h3).symm
    rw [hd'] at h
    obtain ⟨sn3, hmat, h⟩ := bind_eq_ok h
    obtain rfl := into_num_materialize_ok hmat
    have hrec := pairRoundsLoop_ok oracle t1 t2 _ _ out n'
      (by simpa using hlen) (by simp at heven ⊢; omega) h
    rw [List.zip_cons_cons, List.zip_cons_cons, partialFold_cons, partialFold_cons]
    have hval : specPartialRound d (nthD b 0 0) (specPartialRound c (nthD a 0 0) st)
        = mul_by_sparse_matrix d ((y + c1) :: s) := by
      have e1 : specPartialRound c (nthD a 0 0) st
          = mul_by_sparse_matrix c ((x + c0) :: r) := by
        rw [hnth1]
        show matVecMul c (lane0AddC (lane0Pow5 st) c0) = matVecMul c ((x + c0) :: r)
        rw [hx']
        rfl
      rw [e1, hnth2]
      show matVecMul d
          (lane0AddC (lane0Pow5 (mul_by_sparse_matrix c ((x + c0) :: r))) c1)
        = matVecMul d ((y + c1) :: s)
      rw [hy']
      rfl
    exact hval ▸ hrec

/-! The final (unpaired) partial round, and helper facts for assembling
the whole gadget run. -/

theorem lastRoundStep_noFail (cpr : List (List F)) (sm : List (List (List F)))
    (z : List F) (z0 : F) (smL : List (List F)) (st : List F) (n : Nat)
    (hz : cpr.getLast? = some z) (hz0 : z.get? 0 = some z0)
    (hsmL : sm.getLast? = some smL) (hst : st ≠ []) :
    lastRoundStep (noFailure (ε := ε)) cpr sm st n
      = Except.ok (specPartialRound smL z0 st, n + 1) := by
  simp only [lastRoundStep, sboxLane0_noFail, ok_bind, hz, osome_bind, hz0,
    hsmL, orPanic_some]
  rw [add_assign_lane0_total (lane0Pow5_ne_nil hst) z0, ok_bind]
  rfl

theorem lastRoundStep_ok {oracle : Nat → Option ε} {cpr : List (List F)}
    {sm : List (List (List F))} {st : List F} {n : Nat} {out : List F} {n' : Nat}
    (h : lastRoundStep oracle cpr sm st n = Except.ok (out, n')) :
    ∃ x r z0 smL, lane0Pow5 st = x :: r ∧
      (cpr.getLast?.bind fun v => v.get? 0) = some z0 ∧
      sm.getLast? = some smL ∧ out = mul_by_sparse_matrix smL ((x + z0) :: r) := by
  unfold lastRoundStep at h
  obtain ⟨sn, hsb, h⟩ := bind_eq_ok h
  obtain rfl := sboxLane0_ok hsb
  obtain ⟨st1, hadd, h⟩ := bind_eq_ok h
  obtain ⟨x, r, z0, hx, hoc, rfl⟩ := add_assign_lane0_ok hadd
  obtain ⟨smL, hsmL, h⟩ := bind_eq_ok h
  have hsm' := orPanic_ok hsmL
  refine ⟨x, r, z0, smL, hx, hoc, hsm', ?_⟩
  exact (congrArg Prod.fst (Except.ok.inj h)).symm

theorem pp_hash_family (p : PoseidonParams F) :
    p.toHashParams.hash_family = some HashFamily.Poseidon := rfl

theorem pp_full_rounds (p : PoseidonParams F) :
    p.toHashParams.number_of_full_rounds = some p.full_rounds := rfl

theorem pp_partial_rounds (p : PoseidonParams F) :
    p.toHashParams.number_of_partial_rounds = some p.partial_rounds := rfl

theorem pp_mds (p : PoseidonParams F) :
    p.toHashParams.mds_matrix = some p.mds_matrix := rfl

theorem pp_opt_mds (p : PoseidonParams F) :
    p.toHashParams.optimized_mds_matrixes
      = some (p.m_prime, p.sparse_matrixes) := rfl

theorem pp_opt_rc (p : PoseidonParams F) :
    p.toHashParams.optimized_round_constants
      = some p.optimized_round_constants := rfl

theorem constants_for_partial_rounds_eq (orc : List (List F))
    (half pR width : Nat) (h1 : half + 1 ≤ half + pR)
    (h2 : half + pR ≤ orc.length) :
    constants_for_partial_rounds orc half pR width
      = some (specPartialConstants orc half pR width) := by
  simp [constants_for_partial_rounds, sliceD, h1, h2, specPartialConstants]

theorem constants_for_partial_rounds_ok {orc : List (List F)}
    {half pR width : Nat} {cpr : List (List F)}
    (h : constants_for_partial_rounds orc half pR width = some cpr) :
    half + 1 ≤ half + pR ∧ half + pR ≤ orc.length ∧
      cpr = specPartialConstants orc half pR width := by
  unfold constants_for_partial_rounds sliceD at h
  by_cases hc : half + 1 ≤ half + pR ∧ half + pR ≤ orc.length
  · rw [if_pos hc] at h
    refine ⟨hc.1, hc.2, ?_⟩
    have h2 : some ((orc.take (half + pR)).drop (half + 1)
        ++ [List.replicate width (0 : F)]) = some cpr := h
    exact (Option.some.inj h2).symm
  · rw [if_neg hc] at h
    exact absurd h (by simp)

theorem nonemptyCheck_ok {l : List α} (h : l ≠ []) :
    (nonemptyCheck l : Except (Failure ε) Unit) = Except.ok () := by
  cases l with
  | nil => exact absurd rfl h
  | cons x r => rfl

theorem nonemptyCheck_ok_inv {l : List α} {u : Unit}
    (h : (nonemptyCheck l : Except (Failure ε) Unit) = Except.ok u) : l ≠ [] := by
  cases l with
  | nil => exact absurd h (by simp [nonemptyCheck])
  | cons x r => simp

theorem panicUnless_ok {c : Prop} [Decidable c] {u : Unit}
    (h : (panicUnless c : Except (Failure ε) Unit) = Except.ok u) : c := by
  by_cases hc : c
  · exact hc
  · rw [panicUnless_neg hc] at h
    exact absurd h (by simp)

theorem mem_of_mem_dropLast {x : α} : ∀ {l : List α}, x ∈ l.dropLast → x ∈ l := by
  intro l
  induction l with
  | nil => intro h; simp at h
  | cons a t ih =>
    cases t with
    | nil => intro h; simp at h
    | cons b t2 =>
      intro h
      rw [List.dropLast_cons₂] at h
      rcases List.mem_cons.mp h with h | h
      · simp [h]
      · exact List.mem_cons.mpr (Or.inr (ih h))

theorem replicate_get?_zero (width : Nat) (hw : 1 ≤ width) :
    (List.replicate width (0 : F)).get? 0 = some 0 := by
  cases width with
  | zero => omega
  | succ w => rfl

theorem partialFold_append (l1 l2 : List (List F × List (List F))) (st : List F) :
    partialFold (l1 ++ l2) st = partialFold l2 (partialFold l1 st) := by
  simp [partialFold, List.foldl_append]

theorem partialFold_length (width : Nat) :
    ∀ (l : List (List F × List (List F))) (st : List F),
      (∀ cm ∈ l, (cm.2 : List (List F)).length = width) → st.length = width →
      (partialFold l st).length = width := by
  intro l
  induction l with
  | nil => intro st _ hst; exact hst
  | cons cm t ih =>
    intro st hm hst
    rw [partialFold_cons]
    exact ih _ (fun x hx => hm x (by simp [hx]))
      (by rw [specPartialRound_length]; exact hm cm (by simp))

/-- Under a never-failing backend and a well-formed Poseidon parameter
set, the gadget runs its assertions, Phase A and the `M'` transition
deterministically, reaching the merged-pair loop with the spec's Phase
A/transition value and `2 * (full/2) + 1` backend operations performed. -/
theorem gadget_noFail_head_run (p : PoseidonParams F) (width : Nat)
    (st : List F) (n : Nat) (heven : p.full_rounds % 2 = 0)
    (hp1 : 1 ≤ p.partial_rounds)
    (horc : p.full_rounds / 2 + p.partial_rounds
      ≤ p.optimized_round_constants.length)
    (hsmne : p.sparse_matrixes ≠ []) :
    gadget_poseidon_round_function (noFailure (ε := ε)) width p.toHashParams st n
      = (pairRoundsLoop (noFailure (ε := ε))
          ((chunks2 (specPartialConstants p.optimized_round_constants
              (p.full_rounds / 2) p.partial_rounds width).dropLast).zip
            (chunks2 p.sparse_matrixes.dropLast))
          (specTransition p.m_prime
            (nthD p.optimized_round_constants (p.full_rounds / 2) [])
            ((List.range (p.full_rounds / 2)).foldl
              (fun s r =>
                specFullRound p.mds_matrix (nthD p.optimized_round_constants r []) s) st))
          (n + 2 * (p.full_rounds / 2) + 1)
        >>= fun sn =>
          lastRoundStep (noFailure (ε := ε))
            (specPartialConstants p.optimized_round_constants
              (p.full_rounds / 2) p.partial_rounds width)
            p.sparse_matrixes sn.1 sn.2
        >>= fun sn =>
          fullRoundsLoop (noFailure (ε := ε)) p.toHashParams
            p.optimized_round_constants
            (List.range' (p.partial_rounds + p.full_rounds / 2)
              ((p.partial_rounds + p.full_rounds)
                - (p.partial_rounds + p.full_rounds / 2)))
            sn.1 sn.2
        >>= fun sn => Except.ok sn) := by
  obtain ⟨rcH, hhalf⟩ : ∃ v, (p.optimized_round_constants).get? (p.full_rounds / 2)
      = some v := by
    have hlt : p.full_rounds / 2 < p.optimized_round_constants.length := by omega
    refine ⟨p.optimized_round_constants.get ⟨p.full_rounds / 2, hlt⟩, ?_⟩
    simp [List.get?_eq_getElem?, List.getElem?_eq_getElem hlt]
  simp only [gadget_poseidon_round_function, pp_hash_family, pp_full_rounds,
    pp_partial_rounds, pp_opt_mds, pp_opt_rc, orPanic_some, ok_bind]
  rw [panicUnless_pos trivial, ok_bind, panicUnless_pos heven, ok_bind]
  rw [fullRoundsLoop_noFail p.toHashParams p.optimized_round_constants
    p.mds_matrix (pp_mds p) (List.range (p.full_rounds / 2)) st n
    (fun r hr => by have := List.mem_range.mp hr; omega), ok_bind]
  rw [hhalf, orPanic_some, ok_bind, matrix_vector_product_noFail, ok_bind]
  rw [constants_for_partial_rounds_eq _ _ _ _ (by omega) horc, orPanic_some,
    ok_bind, nonemptyCheck_ok hsmne, ok_bind]
  rw [List.length_range]
  rw [nthD_of_get? hhalf]
  rfl

/-- C1: for every well-formed Poseidon parameter set (family Poseidon,
even full-round count, odd partial-round count, one sparse matrix per
partial round, a large-enough optimized-constant table, nonempty constant
vectors, width-sized matrices) and every state of the declared width,
`gadget_poseidon_round_function` computes exactly the spec's three-phase
schedule `specPoseidonPhases` — first `full/2` full rounds (constants to
every lane, quintic S-box on every lane, dense MDS), then the `M'`
transition, then the partial rounds (lane-0 S-box, lane-0 constant, that
round's sparse matrix) with the final unpaired round executed singly, then
the remaining `full/2` full rounds — while performing exactly
`2 + width` backend operations per merged pair (two S-box emissions plus
one materialization allocation per lane after each pair). -/
theorem gadget_poseidon_three_phase (p : PoseidonParams F) (width : Nat)
    (st : List F) (n : Nat) (hw : 1 ≤ width) (hst : st.length = width)
    (heven : p.full_rounds % 2 = 0) (hodd : p.partial_rounds % 2 = 1)
    (hsm : p.sparse_matrixes.length = p.partial_rounds)
    (horc : p.full_rounds + p.partial_rounds
      ≤ p.optimized_round_constants.length)
    (hvec : ∀ v ∈ p.optimized_round_constants, v ≠ [])
    (hmds : p.mds_matrix.length = width) (hmp : p.m_prime.length = width)
    (hsparse : ∀ m ∈ p.sparse_matrixes, m.length = width) :
    gadget_poseidon_round_function (noFailure (ε := ε)) width p.toHashParams st n
      = Except.ok
          (specPoseidonPhases width p.full_rounds p.partial_rounds
            p.optimized_round_constants p.mds_matrix p.m_prime
            p.sparse_matrixes st,
           n + (4 * (p.full_rounds / 2) + 2
             + (p.partial_rounds / 2) * (2 + width))) := by
  have hp1 : 1 ≤ p.partial_rounds := by omega
  have hsmne : p.sparse_matrixes ≠ [] := by
    intro h; rw [h] at hsm; simp at hsm; omega
  rw [gadget_noFail_head_run p width st n heven hp1 (by omega) hsmne]
  obtain ⟨sm', smL, hsmrep⟩ : ∃ sm' smL, p.sparse_matrixes = sm' ++ [smL] := by
    rcases List.eq_nil_or_concat p.sparse_matrixes with h | ⟨sm', smL, h⟩
    · exact absurd h hsmne
    · exact ⟨sm', smL, by simpa using h⟩
  have hspc : specPartialConstants p.optimized_round_constants
      (p.full_rounds / 2) p.partial_rounds width
      = (p.optimized_round_constants.take (p.full_rounds / 2 + p.partial_rounds)).drop
          (p.full_rounds / 2 + 1) ++ [List.replicate width (0 : F)] := rfl
  have hslicelen : ((p.optimized_round_constants.take
      (p.full_rounds / 2 + p.partial_rounds)).drop
        (p.full_rounds / 2 + 1)).length = p.partial_rounds - 1 := by
    rw [List.length_drop, List.length_take]
    omega
  have hsm'len : sm'.length = p.partial_rounds - 1 := by
    rw [hsmrep] at hsm
    simp at hsm
    omega
  have hstTlen : (specTransition p.m_prime
      (nthD p.optimized_round_constants (p.full_rounds / 2) [])
      ((List.range (p.full_rounds / 2)).foldl
        (fun s r =>
          specFullRound p.mds_matrix (nthD p.optimized_round_constants r []) s)
        st)).length = width := by
    rw [specTransition, matVecMul_length, hmp]
  rw [hsmrep, hspc, List.dropLast_concat, List.dropLast_concat]
  rw [pairRoundsLoop_noFail width hw _ sm' _ _
    (by rw [hslicelen, hsm'len]) (by rw [hslicelen]; omega)
    (fun c hc => hvec c (List.mem_of_mem_take (List.mem_of_mem_drop hc)))
    (fun m hm => hsparse m (by rw [hsmrep]; exact List.mem_append_left _ hm))
    hstTlen]
  simp only [ok_bind]
  have hfoldlen : (partialFold
      (((p.optimized_round_constants.take
        (p.full_rounds / 2 + p.partial_rounds)).drop
          (p.full_rounds / 2 + 1)).zip sm')
      (specTransition p.m_prime
        (nthD p.optimized_round_constants (p.full_rounds / 2) [])
        ((List.range (p.full_rounds / 2)).foldl
          (fun s r =>
            specFullRound p.mds_matrix (nthD p.optimized_round_constants r []) s)
          st))).length = width := by
    refine partialFold_length width _ _ (fun cm hcm => ?_) hstTlen
    have := List.of_mem_zip hcm
    exact hsparse cm.2 (by rw [hsmrep]; exact List.mem_append_left _ this.2)
  rw [lastRoundStep_noFail _ _ (List.replicate width (0 : F)) 0 smL _ _
    (List.getLast?_concat _)
    (replicate_get?_zero width hw) (List.getLast?_concat _)
    (by intro h; rw [h] at hfoldlen; simp at hfoldlen; omega)]
  simp only [ok_bind]
  rw [fullRoundsLoop_noFail p.toHashParams p.optimized_round_constants
    p.mds_matrix (pp_mds p) _ _ _
    (fun r hr => by
      obtain ⟨i, hi, rfl⟩ := List.mem_range'.mp hr
      omega)]
  simp only [ok_bind]
  congr 1
  simp only [Prod.mk.injEq]
  have hrange : (p.partial_rounds + p.full_rounds)
      - (p.partial_rounds + p.full_rounds / 2)
      = p.full_rounds - p.full_rounds / 2 := by omega
  constructor
  · simp only [specPoseidonPhases]
    rw [hspc, List.zip_append (by rw [hslicelen, hsm'len]), partialFold_append,
      List.zip_cons_cons, List.zip_nil_right, partialFold_cons,
      nthD_of_get? (replicate_get?_zero width hw), hrange]
    rfl
  · rw [List.length_range', hslicelen]
    have e1 : (p.partial_rounds - 1) / 2 = p.partial_rounds / 2 := by omega
    rw [e1, hrange]
    generalize p.partial_rounds / 2 * (2 + width) = K
    omega

/-- C9: with an even (and at least 2) number of partial rounds — the
family and full-round assertions passing, the tables well-formed — the
merged-pair loop's final chunk is a singleton, and the access to its
second element panics: `gadget_poseidon_round_function` fails with a
panic for every input state, even though the backend never signals a
failure. -/
theorem gadget_poseidon_even_partial_rounds_panic (p : PoseidonParams F)
    (width : Nat) (st : List F) (n : Nat) (hw : 1 ≤ width)
    (hst : st.length = width) (heven : p.full_rounds % 2 = 0)
    (hpe : p.partial_rounds % 2 = 0) (hp2 : 2 ≤ p.partial_rounds)
    (hsm : p.sparse_matrixes.length = p.partial_rounds)
    (horc : p.full_rounds / 2 + p.partial_rounds
      ≤ p.optimized_round_constants.length)
    (hvec : ∀ v ∈ p.optimized_round_constants, v ≠ [])
    (hmp : p.m_prime.length = width)
    (hsparse : ∀ m ∈ p.sparse_matrixes, m.length = width) :
    gadget_poseidon_round_function (noFailure (ε := ε)) width p.toHashParams st n
      = Except.error Failure.panic := by
  have hp1 : 1 ≤ p.partial_rounds := by omega
  have hsmne : p.sparse_matrixes ≠ [] := by
    intro h; rw [h] at hsm; simp at hsm; omega
  rw [gadget_noFail_head_run p width st n heven hp1 horc hsmne]
  obtain ⟨sm', smL, hsmrep⟩ : ∃ sm' smL, p.sparse_matrixes = sm' ++ [smL] := by
    rcases List.eq_nil_or_concat p.sparse_matrixes with h | ⟨sm', smL, h⟩
    · exact absurd h hsmne
    · exact ⟨sm', smL, by simpa using h⟩
  have hspc : specPartialConstants p.optimized_round_constants
      (p.full_rounds / 2) p.partial_rounds width
      = (p.optimized_round_constants.take
          (p.full_rounds / 2 + p.partial_rounds)).drop (p.full_rounds / 2 + 1)
        ++ [List.replicate width (0 : F)] := rfl
  have hslicelen : ((p.optimized_round_constants.take
      (p.full_rounds / 2 + p.partial_rounds)).drop
        (p.full_rounds / 2 + 1)).length = p.partial_rounds - 1 := by
    rw [List.length_drop, List.length_take]
    omega
  have hsm'len : sm'.length = p.partial_rounds - 1 := by
    rw [hsmrep] at hsm
    simp at hsm
    omega
  have hstTlen : (specTransition p.m_prime
      (nthD p.optimized_round_constants (p.full_rounds / 2) [])
      ((List.range (p.full_rounds / 2)).foldl
        (fun s r =>
          specFullRound p.mds_matrix (nthD p.optimized_round_constants r []) s)
        st)).length = width := by
    rw [specTransition, matVecMul_length, hmp]
  rw [hsmrep, hspc, List.dropLast_concat, List.dropLast_concat]
  rw [pairRoundsLoop_noFail_odd_panic width hw _ sm' _ _
    (by rw [hslicelen, hsm'len]) (by rw [hslicelen]; omega)
    (fun c hc => hvec c (List.mem_of_mem_take (List.mem_of_mem_drop hc)))
    (fun m hm => hsparse m (by rw [hsmrep]; exact List.mem_append_left _ hm))
    hstTlen]
  rfl

/-- C10: the constant vector consumed by the final (unpaired) partial
round is always the all-zero vector pushed onto the sliced optimized round
constants, its lane-0 entry is the additive identity, and the gadget's
lane-0 constant addition with it leaves the state unchanged. -/
theorem final_partial_round_constant_is_zero (orc : List (List F))
    (half pR width : Nat) (hw : 1 ≤ width) (hp1 : 1 ≤ pR)
    (hlen : half + pR ≤ orc.length) :
    ∃ cpr, constants_for_partial_rounds orc half pR width = some cpr ∧
      cpr.getLast? = some (List.replicate width (0 : F)) ∧
      (List.replicate width (0 : F)).get? 0 = some (0 : F) ∧
      (∀ st : List F, st ≠ [] →
        add_assign_lane0 (ε := ε) st (cpr.getLast?.bind fun v => v.get? 0)
          = Except.ok st) := by
  have h1 : (specPartialConstants orc half pR width).getLast?
      = some (List.replicate width (0 : F)) := List.getLast?_concat _
  refine ⟨specPartialConstants orc half pR width,
    constants_for_partial_rounds_eq orc half pR width (by omega) hlen,
    h1, replicate_get?_zero width hw, ?_⟩
  intro st hst
  rw [h1, osome_bind, replicate_get?_zero width hw,
    add_assign_lane0_total hst 0]
  cases st with
  | nil => exact absurd rfl hst
  | cons x r => simp [lane0AddC]

theorem fullRoundsLoop_ok' {hp : HashParams F} {orc : List (List F)}
    {mds : List (List F)} (hmds : hp.mds_matrix = some mds)
    {oracle : Nat → Option ε} {l : List Nat} {st : List F} {n : Nat}
    {sn : List F × Nat}
    (h : fullRoundsLoop oracle hp orc l st n = Except.ok sn) :
    sn.1 = l.foldl (fun s r => specFullRound mds (nthD orc r []) s) st :=
  fullRoundsLoop_ok hp orc mds hmds oracle l st n sn.1 sn.2
    (h.trans (congrArg Except.ok Prod.mk.eta.symm))

theorem pairRoundsLoop_ok' {oracle : Nat → Option ε} {l1 : List (List F)}
    {l2 : List (List (List F))} {st : List F} {n : Nat} {sn : List F × Nat}
    (hlen : l1.length = l2.length) (heven : l1.length % 2 = 0)
    (h : pairRoundsLoop oracle ((chunks2 l1).zip (chunks2 l2)) st n
      = Except.ok sn) :
    sn.1 = partialFold (l1.zip l2) st :=
  pairRoundsLoop_ok oracle l1 l2 st n sn.1 sn.2 hlen heven
    (h.trans (congrArg Except.ok Prod.mk.eta.symm))

theorem lastRoundStep_ok' {oracle : Nat → Option ε} {cpr : List (List F)}
    {sm : List (List (List F))} {st : List F} {n : Nat} {sn : List F × Nat}
    (h : lastRoundStep oracle cpr sm st n = Except.ok sn) :
    ∃ x r z0 smL, lane0Pow5 st = x :: r ∧
      (cpr.getLast?.bind fun v => v.get? 0) = some z0 ∧
      sm.getLast? = some smL ∧
      sn.1 = mul_by_sparse_matrix smL ((x + z0) :: r) :=
  lastRoundStep_ok (h.trans (congrArg Except.ok Prod.mk.eta.symm))

theorem nthD_replicate_zero (width : Nat) :
    nthD (List.replicate width (0 : F)) 0 (0 : F) = 0 := by
  cases width <;> rfl

/-- C4: parity of the constrained and native Poseidon permutations — for
every parameter set with an odd partial-round count and one sparse matrix
per partial round, whenever `gadget_poseidon_round_function` completes
(under any backend, with any field values bound to the circuit
variables), the values it produces are exactly those of the native
`poseidon_round_function` on the same concrete state, for every state
width. -/
theorem gadget_poseidon_parity (p : PoseidonParams F) (width : Nat)
    (oracle : Nat → Option ε) (st out : List F) (n n' : Nat)
    (hodd : p.partial_rounds % 2 = 1)
    (hsm : p.sparse_matrixes.length = p.partial_rounds)
    (hok : gadget_poseidon_round_function oracle width p.toHashParams st n
      = Except.ok (out, n')) :
    out = poseidon_round_function width p st := by
  simp only [gadget_poseidon_round_function, pp_hash_family, pp_full_rounds,
    pp_partial_rounds, pp_opt_mds, pp_opt_rc, orPanic_some, ok_bind] at hok
  rw [panicUnless_pos trivial, ok_bind] at hok
  obtain ⟨u2, hpu2, hok⟩ := bind_eq_ok hok
  have heven : p.full_rounds % 2 = 0 := panicUnless_ok hpu2
  obtain ⟨sn1, hloop1, hok⟩ := bind_eq_ok hok
  have hval1 := fullRoundsLoop_ok' (pp_mds p) hloop1
  obtain ⟨rcH, hrcH, hok⟩ := bind_eq_ok hok
  have hrcH' := orPanic_ok hrcH
  obtain ⟨sn2, hmv, hok⟩ := bind_eq_ok hok
  obtain rfl := matrix_vector_product_ok hmv
  obtain ⟨cpr, hcpr, hok⟩ := bind_eq_ok hok
  obtain ⟨hle1, hle2, rfl⟩ := constants_for_partial_rounds_ok (orPanic_ok hcpr)
  obtain ⟨u3, hnec, hok⟩ := bind_eq_ok hok
  have hsmne := nonemptyCheck_ok_inv hnec
  obtain ⟨sm', smL, hsmrep⟩ : ∃ sm' smL, p.sparse_matrixes = sm' ++ [smL] := by
    rcases List.eq_nil_or_concat p.sparse_matrixes with h | ⟨sm', smL, h⟩
    · exact absurd h hsmne
    · exact ⟨sm', smL, by simpa using h⟩
  have hdrop1 : (specPartialConstants p.optimized_round_constants
      (p.full_rounds / 2) p.partial_rounds width).dropLast
      = (p.optimized_round_constants.take
          (p.full_rounds / 2 + p.partial_rounds)).drop (p.full_rounds / 2 + 1) :=
    List.dropLast_concat
  have hslicelen : ((p.optimized_round_constants.take
      (p.full_rounds / 2 + p.partial_rounds)).drop
        (p.full_rounds / 2 + 1)).length = p.partial_rounds - 1 := by
    rw [List.length_drop, List.length_take]
    omega
  have hsm'len : sm'.length = p.partial_rounds - 1 := by
    rw [hsmrep] at hsm
    simp at hsm
    omega
  rw [hsmrep, List.dropLast_concat, hdrop1] at hok
  obtain ⟨sn3, hpair, hok⟩ := bind_eq_ok hok
  have hval3 := pairRoundsLoop_ok' (by rw [hslicelen, hsm'len])
    (by rw [hslicelen]; omega) hpair
  obtain ⟨sn4, hlast, hok⟩ := bind_eq_ok hok
  obtain ⟨x, r, z0, smL', hx, hoc, hsmL', hout⟩ := lastRoundStep_ok' hlast
  have hz : (specPartialConstants p.optimized_round_constants
      (p.full_rounds / 2) p.partial_rounds width).getLast?
      = some (List.replicate width (0 : F)) := List.getLast?_concat _
  rw [hz, osome_bind] at hoc
  have hz0 : z0 = 0 := by
    cases width with
    | zero => simp [List.replicate] at hoc
    | succ w => exact (Option.some.inj hoc).symm
  have hsmLeq : smL' = smL := by
    rw [List.getLast?_concat] at hsmL'
    exact (Option.some.inj hsmL').symm
  obtain ⟨sn5, hloop2, hok⟩ := bind_eq_ok hok
  have hval5 := fullRoundsLoop_ok' (pp_mds p) hloop2
  have hout5 : sn5.1 = out := congrArg Prod.fst (Except.ok.inj hok)
  rw [← hout5, hval5]
  have hsn4 : sn4.1 = specPartialRound smL 0 sn3.1 := by
    rw [hout, hsmLeq, hz0]
    show mul_by_sparse_matrix smL ((x + 0) :: r)
      = matVecMul smL (lane0AddC (lane0Pow5 sn3.1) 0)
    rw [hx]
    rfl
  rw [hsn4, hval3, hval1]
  simp only [poseidon_round_function, specPoseidonPhases]
  rw [hsmrep]
  have hspc2 : specPartialConstants p.optimized_round_constants
      (p.full_rounds / 2) p.partial_rounds width
      = (p.optimized_round_constants.take
          (p.full_rounds / 2 + p.partial_rounds)).drop (p.full_rounds / 2 + 1)
        ++ [List.replicate width (0 : F)] := rfl
  rw [hspc2, List.zip_append (by rw [hslicelen, hsm'len]), partialFold_append,
    List.zip_cons_cons, List.zip_nil_right, partialFold_cons,
    nthD_replicate_zero, nthD_of_get? hrcH']
  have hrange : (p.partial_rounds + p.full_rounds)
      - (p.partial_rounds + p.full_rounds / 2)
      = p.full_rounds - p.full_rounds / 2 := by omega
  rw [hrange]
  rfl

/-! Error propagation: the gadget never returns a synthesis error the
backend did not signal; the only other failure shape is a panic. -/

theorem noSynth_bind {e : ε} {ma : Except (Failure ε) α}
    {f : α → Except (Failure ε) β}
    (h1 : ma ≠ Except.error (Failure.synth e))
    (h2 : ∀ a, f a ≠ Except.error (Failure.synth e)) :
    (ma >>= f) ≠ Except.error (Failure.synth e) := by
  cases ma with
  | error er =>
    intro hc
    rw [error_bind] at hc
    exact h1 (by rw [Except.error.inj hc])
  | ok a =>
    rw [ok_bind]
    exact h2 a

theorem noSynth_ok {e : ε} (a : α) :
    (Except.ok a : Except (Failure ε) α) ≠ Except.error (Failure.synth e) := by
  simp

theorem noSynth_orPanic {e : ε} (o : Option α) :
    (orPanic o : Except (Failure ε) α) ≠ Except.error (Failure.synth e) := by
  cases o <;> simp [orPanic]

theorem noSynth_panicUnless {e : ε} (c : Prop) [Decidable c] :
    (panicUnless c : Except (Failure ε) Unit)
      ≠ Except.error (Failure.synth e) := by
  by_cases h : c
  · rw [panicUnless_pos h]; simp
  · rw [panicUnless_neg h]; simp

theorem noSynth_nonemptyCheck {e : ε} (l : List α) :
    (nonemptyCheck l : Except (Failure ε) Unit)
      ≠ Except.error (Failure.synth e) := by
  cases l <;> simp [nonemptyCheck]

theorem noSynth_sbox {oracle : Nat → Option ε} {e : ε}
    (hor : ∀ k, oracle k ≠ some e) (st : List F) (n : Nat) :
    sbox_quintic oracle st n ≠ Except.error (Failure.synth e) := by
  unfold sbox_quintic
  cases ho : oracle n with
  | none => simp
  | some e' =>
    intro hc
    have he : e' = e := by
      have := Except.error.inj hc
      exact Failure.synth.inj this
    exact hor n (he ▸ ho)

theorem noSynth_mvp {oracle : Nat → Option ε} {e : ε}
    (hor : ∀ k, oracle k ≠ some e) (m : List (List F)) (v : List F) (n : Nat) :
    matrix_vector_product oracle m v n ≠ Except.error (Failure.synth e) := by
  unfold matrix_vector_product
  cases ho : oracle n with
  | none => simp
  | some e' =>
    intro hc
    have he : e' = e := by
      have := Except.error.inj hc
      exact Failure.synth.inj this
    exact hor n (he ▸ ho)

theorem noSynth_sboxLane0 {oracle : Nat → Option ε} {e : ε}
    (hor : ∀ k, oracle k ≠ some e) (st : List F) (n : Nat) :
    sboxLane0 oracle st n ≠ Except.error (Failure.synth e) := by
  unfold sboxLane0
  exact noSynth_bind (noSynth_sbox hor _ _) (fun a => noSynth_ok _)

theorem noSynth_add_assign {e : ε} (st : List F) (oc : Option F) :
    add_assign_lane0 (ε := ε) st oc ≠ Except.error (Failure.synth e) := by
  cases st with
  | nil => simp [add_assign_lane0]
  | cons x r => cases oc <;> simp [add_assign_lane0]

theorem noSynth_materialize {oracle : Nat → Option ε} {e : ε} :
    ∀ (st : List F) (n : Nat),
      into_num_materialize oracle st n ≠ Except.error (Failure.synth e) := by
  intro st
  induction st with
  | nil => intro n; simp [into_num_materialize]
  | cons x rest ih =>
    intro n
    unfold into_num_materialize
    cases oracle n with
    | some e' => simp
    | none => exact noSynth_bind (ih (n + 1)) (fun a => noSynth_ok _)

theorem noSynth_fullRoundsLoop {oracle : Nat → Option ε} {e : ε}
    (hor : ∀ k, oracle k ≠ some e) (hp : HashParams F) (orc : List (List F)) :
    ∀ (l : List Nat) (st : List F) (n : Nat),
      fullRoundsLoop oracle hp orc l st n ≠ Except.error (Failure.synth e) := by
  intro l
  induction l with
  | nil => intro st n; simp [fullRoundsLoop]
  | cons r rest ih =>
    intro st n
    unfold fullRoundsLoop
    refine noSynth_bind (noSynth_orPanic _) (fun rc => ?_)
    refine noSynth_bind (noSynth_sbox hor _ _) (fun sn => ?_)
    refine noSynth_bind (noSynth_orPanic _) (fun mds => ?_)
    refine noSynth_bind (noSynth_mvp hor _ _ _) (fun sn2 => ?_)
    exact ih _ _

theorem noSynth_pairRoundsLoop {oracle : Nat → Option ε} {e : ε}
    (hor : ∀ k, oracle k ≠ some e) :
    ∀ (l : List (List (List F) × List (List (List F)))) (st : List F) (n : Nat),
      pairRoundsLoop oracle l st n ≠ Except.error (Failure.synth e) := by
  intro l
  induction l with
  | nil => intro st n; simp [pairRoundsLoop]
  | cons cm rest ih =>
    intro st n
    obtain ⟨rcC, smC⟩ := cm
    unfold pairRoundsLoop
    refine noSynth_bind (noSynth_sboxLane0 hor _ _) (fun sn => ?_)
    refine noSynth_bind (noSynth_add_assign _ _) (fun st1 => ?_)
    refine noSynth_bind (noSynth_orPanic _) (fun sm0 => ?_)
    refine noSynth_bind (noSynth_sboxLane0 hor _ _) (fun sn2 => ?_)
    refine noSynth_bind (noSynth_add_assign _ _) (fun st2 => ?_)
    refine noSynth_bind (noSynth_orPanic _) (fun sm1 => ?_)
    refine noSynth_bind (noSynth_materialize _ _) (fun sn3 => ?_)
    exact ih _ _

theorem noSynth_lastRoundStep {oracle : Nat → Option ε} {e : ε}
    (hor : ∀ k, oracle k ≠ some e) (cpr : List (List F))
    (sm : List (List (List F))) (st : List F) (n : Nat) :
    lastRoundStep oracle cpr sm st n ≠ Except.error (Failure.synth e) := by
  unfold lastRoundStep
  refine noSynth_bind (noSynth_sboxLane0 hor _ _) (fun sn => ?_)
  refine noSynth_bind (noSynth_add_assign _ _) (fun st1 => ?_)
  refine noSynth_bind (noSynth_orPanic _) (fun smL => ?_)
  exact noSynth_ok _

/-- The amended C3: `gadget_poseidon_round_function` never invents or
alters a synthesis failure — a synthesis error value it returns through
its `Result` is exactly one the constraint system signalled.  (As the
counterexample shows, the converse direction of the original claim fails:
the per-pair materialization unwraps its fallible allocation with
`expect`, turning that one failure into a panic instead of returning
it.) -/
theorem gadget_poseidon_no_foreign_synth (oracle : Nat → Option ε)
    (width : Nat) (hp : HashParams F) (st : List F) (n : Nat) (e : ε)
    (hor : ∀ k, oracle k ≠ some e) :
    gadget_poseidon_round_function oracle width hp st n
      ≠ Except.error (Failure.synth e) := by
  unfold gadget_poseidon_round_function
  refine noSynth_bind (noSynth_orPanic _) (fun fam => ?_)
  refine noSynth_bind (noSynth_panicUnless _) (fun _ => ?_)
  refine noSynth_bind (noSynth_orPanic _) (fun full => ?_)
  refine noSynth_bind (noSynth_panicUnless _) (fun _ => ?_)
  refine noSynth_bind (noSynth_orPanic _) (fun mm => ?_)
  refine noSynth_bind (noSynth_orPanic _) (fun orc => ?_)
  refine noSynth_bind (noSynth_fullRoundsLoop hor hp orc _ _ _) (fun sn => ?_)
  refine noSynth_bind (noSynth_orPanic _) (fun rcH => ?_)
  refine noSynth_bind (noSynth_mvp hor _ _ _) (fun sn2 => ?_)
  refine noSynth_bind (noSynth_orPanic _) (fun pR => ?_)
  refine noSynth_bind (noSynth_orPanic _) (fun cpr => ?_)
  refine noSynth_bind (noSynth_nonemptyCheck _) (fun _ => ?_)
  refine noSynth_bind (noSynth_pairRoundsLoop hor _ _ _) (fun sn3 => ?_)
  refine noSynth_bind (noSynth_lastRoundStep hor _ _ _ _) (fun sn4 => ?_)
  refine noSynth_bind (noSynth_fullRoundsLoop hor hp orc _ _ _) (fun sn5 => ?_)
  exact noSynth_ok _

/-! Witnesses and the counterexample: concrete runs over `ℤ`. -/

theorem c1_witness :
    gadget_poseidon_round_function (noFailure (ε := Nat)) 2 pEx.toHashParams
        [(1 : ℤ), 0] 0
      = Except.ok (specPoseidonPhases 2 pEx.full_rounds pEx.partial_rounds
          pEx.optimized_round_constants pEx.mds_matrix pEx.m_prime
          pEx.sparse_matrixes [(1 : ℤ), 0],
        0 + (4 * (pEx.full_rounds / 2) + 2
          + (pEx.partial_rounds / 2) * (2 + 2))) :=
  gadget_poseidon_three_phase pEx 2 [(1 : ℤ), 0] 0 (by decide) (by decide)
    (by decide) (by decide) (by decide) (by decide) (by decide) (by decide)
    (by decide) (by decide)

theorem c2_witness :
    rescue_round_function rEx.toHashParams [(1 : ℤ), 1]
      = some (rescueSpec rEx.full_rounds rEx.mds_matrix rEx.alpha
          rEx.alpha_inv cEx [(1 : ℤ), 1]) :=
  rescue_round_structure rEx.toHashParams rEx.full_rounds rEx.mds_matrix
    rEx.alpha rEx.alpha_inv cEx [(1 : ℤ), 1] rfl rfl rfl rfl rfl
    (fun r hr => by
      have h2 : r ≤ 2 := hr
      interval_cases r <;> rfl)

theorem c3_counterexample :
    gadget_poseidon_round_function failAt5 2 pEx3.toHashParams [(1 : ℤ), 0] 0
      = Except.error Failure.panic
    ∧ failAt5 5 = some 7
    ∧ (Except.error Failure.panic : Except (Failure Nat) (List ℤ × Nat))
        ≠ Except.error (Failure.synth 7) :=
  ⟨rfl, rfl, by simp⟩

theorem c3_witness :
    gadget_poseidon_round_function (noFailure (ε := Nat)) 2 pEx3.toHashParams
        [(1 : ℤ), 0] 0
      ≠ Except.error (Failure.synth 7) :=
  gadget_poseidon_no_foreign_synth (noFailure (ε := Nat)) 2 pEx3.toHashParams
    [(1 : ℤ), 0] 0 7 (fun k => by simp [noFailure])

theorem c4_witness :
    [(32 : ℤ), 1] = poseidon_round_function 2 pEx [(1 : ℤ), 0] :=
  gadget_poseidon_parity pEx 2 (noFailure (ε := Nat)) [(1 : ℤ), 0]
    [(32 : ℤ), 1] 0 6 (by decide) (by decide) (by rfl)

theorem c5_witness :
    ((rescue_round_function rEx.toHashParams [(1 : ℤ), 1]).isSome = true
      ↔ 2 * rEx.full_rounds + 1 ≤ rEx.round_constants.length)
    ∧ rescue_round_function pEx.toHashParams [(1 : ℤ), 1] = none
    ∧ rescue_round_function rEx2.toHashParams [(1 : ℤ), 1]
        = rescue_round_function rEx.toHashParams [(1 : ℤ), 1] := by
  obtain ⟨h1, h2, h3⟩ := rescue_round_consumes rEx [(1 : ℤ), 1]
  refine ⟨h1, h2 pEx.toHashParams HashFamily.Poseidon rfl (by decide), ?_⟩
  exact h3 rEx2 rfl rfl rfl rfl
    (fun r hr => by
      have h4 : r < 3 := hr
      interval_cases r <;> rfl)

theorem c6_witness :
    gadget_poseidon_round_function (noFailure (ε := Nat)) 3 rEx.toHashParams
        [(1 : ℤ)] 0 = Except.error Failure.panic
    ∧ gadget_poseidon_round_function (noFailure (ε := Nat)) 2
        pOdd.toHashParams [(1 : ℤ), 0] 0 = Except.error Failure.panic := by
  constructor
  · exact gadget_poseidon_precondition_checks rEx.toHashParams
      HashFamily.Rescue (noFailure (ε := Nat)) 3 [(1 : ℤ)] 0 rfl
      (Or.inl (by decide))
  · exact gadget_poseidon_precondition_checks pOdd.toHashParams
      HashFamily.Poseidon (noFailure (ε := Nat)) 2 [(1 : ℤ), 0] 0 rfl
      (Or.inr ⟨3, rfl, by decide⟩)

theorem c9_witness :
    gadget_poseidon_round_function (noFailure (ε := Nat)) 2 pEx9.toHashParams
        [(1 : ℤ), 0] 0 = Except.error Failure.panic :=
  gadget_poseidon_even_partial_rounds_panic pEx9 2 [(1 : ℤ), 0] 0 (by decide)
    (by decide) (by decide) (by decide) (by decide) (by decide) (by decide)
    (by decide) (by decide) (by decide)

theorem c10_witness :
    ∃ cpr, constants_for_partial_rounds pEx.optimized_round_constants 1 1 2
        = some cpr ∧
      cpr.getLast? = some (List.replicate 2 (0 : ℤ)) ∧
      (List.replicate 2 (0 : ℤ)).get? 0 = some (0 : ℤ) ∧
      (∀ st : List ℤ, st ≠ [] →
        add_assign_lane0 (ε := Nat) st (cpr.getLast?.bind fun v => v.get? 0)
          = Except.ok st) :=
  final_partial_round_constant_is_zero pEx.optimized_round_constants 1 1 2
    (by decide) (by decide) (by decide)

end RescuePoseidon
